
import Mathlib

/-!
Shallow embedding of the DHCP authentication core of dhcpcd (`src/auth.c`,
with `src/common.c` as auxiliary context), together with proofs about the
specified behaviour of `dhcp_auth_validate`, `dhcp_auth_encode` and
`get_next_rdm_monotonic`.

Messages and keys are byte sequences modelled as `List Nat` (each element a
byte value).  Machine integers are modelled as `Nat` with explicit `% 2 ^ 64`
(resp. `% 2 ^ 32`) where C unsigned overflow matters.  The MAC primitive
`hmac_md5` is an external collaborator of the core (see the spec, §1), so the
definitions are parametric in a digest function `h`; the C code always copies
exactly 16 digest bytes out of its stack buffer, which `to16` captures.
-/

namespace DhcpcdAuth

/-- Byte fetch `m[i]`; an out-of-range read is modelled as zero
(the corresponding C access would be out of bounds, which no claim
exercises on in-range inputs). -/
def getB (m : List Nat) (i : Nat) : Nat := m.getD i 0

/-- Read `n` consecutive bytes of `m` starting at offset `off`. -/
def readBytes (m : List Nat) (off n : Nat) : List Nat :=
  (List.range n).map (fun j => getB m (off + j))

/-- Write the bytes `bs` into `m` starting at offset `off` (C `memcpy` into
the middle of a buffer).  Bytes that would land beyond the end of `m` are
dropped, keeping the function total. -/
def writeBytes : List Nat → Nat → List Nat → List Nat
  | [], _, _ => []
  | m, _, [] => m
  | _ :: m, 0, c :: bs => c :: writeBytes m 0 bs
  | b :: m, o + 1, bs => b :: writeBytes m o bs

/-- Big-endian encoding of a 64-bit value into 8 bytes, as produced by
`htonll` followed by `memcpy` in `dhcp_auth_encode`. -/
def be64enc (v : Nat) : List Nat :=
  (List.range 8).map (fun j => v / 2 ^ (8 * (7 - j)) % 256)

/-- Big-endian decoding of bytes into an unsigned value, as produced by
`memcpy` into a `uint64_t` followed by `ntohll` in `dhcp_auth_validate`. -/
def beDec (bs : List Nat) : Nat := bs.foldl (fun a b => a * 256 + b % 256) 0

/-- Big-endian encoding of a 32-bit value into 4 bytes (`htonl` + `memcpy`). -/
def be32enc (v : Nat) : List Nat :=
  (List.range 4).map (fun j => v / 2 ^ (8 * (4 - 1 - j)) % 256)

/-- C unsigned 64-bit subtraction `a - b` (two's-complement wraparound). -/
def usub64 (a b : Nat) : Nat :=
  (a % 2 ^ 64 + (2 ^ 64 - b % 2 ^ 64)) % 2 ^ 64

/-- The C code always copies exactly `sizeof(hmac) = 16` bytes out of the
digest buffer, whatever the abstract digest function yields; `to16` pads or
truncates the digest list to that length. -/
def to16 (bs : List Nat) : List Nat :=
  bs.take 16 ++ List.replicate (16 - bs.length) 0

/- ### Constants

`AUTH_PROTO_*`, `AUTH_ALG_*` and `AUTH_RDM_*` come from `auth.h`, which is
not under `src/`; the spec (§6) fixes their wire values. -/
/-- Modelled from the spec: wire value of the token protocol (`auth.h` is not
in the sources; the spec §6 gives `TOKEN=0`). -/
def AUTH_PROTO_TOKEN : Nat := 0

/-- Modelled from the spec: wire value `DELAYED=1` (§6). -/
def AUTH_PROTO_DELAYED : Nat := 1

/-- Modelled from the spec: wire value `RECONF_KEY=2` (§6). -/
def AUTH_PROTO_RECONFKEY : Nat := 2

/-- Modelled from the spec: wire value `DELAYED_REALM=3` (§6). -/
def AUTH_PROTO_DELAYEDREALM : Nat := 3

/-- Modelled from the spec: wire value `HMAC_MD5=1` (§6). -/
def AUTH_ALG_HMAC_MD5 : Nat := 1

/-- Modelled from the spec: wire value `MONOTONIC=0` (§6). -/
def AUTH_RDM_MONOTONIC : Nat := 0

/-- Modelled from the spec: the `SEND` flag bit of the policy options bitset
(`DHCPCD_AUTH_SEND` lives in the missing `dhcpcd.h`; the spec §3 only
requires it to be a distinguished bit). -/
def DHCPCD_AUTH_SEND : Nat := 1

/-- Modelled from the spec: DHCPv4 message-type values from the missing
`dhcp.h`, fixed by RFC 2131 (`DISCOVER=1`). -/
def DHCP_DISCOVER : Nat := 1

/-- Modelled from the spec: DHCPv4 `ACK=5` (RFC 2131, missing `dhcp.h`). -/
def DHCP_ACK : Nat := 5

/-- Modelled from the spec: DHCPv4 `INFORM=8` (RFC 2131, missing `dhcp.h`). -/
def DHCP_INFORM : Nat := 8

/-- Modelled from the spec: DHCPv6 `SOLICIT=1` (RFC 3315, missing `dhcp6.h`). -/
def DHCP6_SOLICIT : Nat := 1

/-- Modelled from the spec: DHCPv6 `REPLY=7` (RFC 3315, missing `dhcp6.h`). -/
def DHCP6_REPLY : Nat := 7

/-- Modelled from the spec: DHCPv6 `INFORMATION_REQ=11` (RFC 3315, missing
`dhcp6.h`). -/
def DHCP6_INFORMATION_REQ : Nat := 11

/-- Modelled from the spec: `offsetof(struct dhcp_message, hwopcount)`; the
struct lives in the missing `dhcp.h` and mirrors the RFC 2131 fixed header,
where the hops byte is at offset 3 (§6 normalization rule). -/
def off_hwopcount : Nat := 3

/-- Modelled from the spec: `offsetof(struct dhcp_message, giaddr) = 24`
(RFC 2131 fixed header, missing `dhcp.h`; four bytes, §6). -/
def off_giaddr : Nat := 24

/- ### Data model (`auth.h` structures, carried over from the source's use) -/
/-- A shared-secret token (`struct token`): `realm_len` and `key_len` are the
list lengths; `expire = 0` models the "no expiry" case (C uses a zero
`time_t`). -/
structure token where
  secretid : Nat
  realm : List Nat
  key : List Nat
  expire : Nat
  deriving DecidableEq, Repr

/-- The authentication policy (`struct auth`): `options` is the bitset tested
against `DHCPCD_AUTH_SEND`, `tokens` the ordered token store. -/
structure auth where
  options : Nat
  protocol : Nat
  algorithm : Nat
  rdm : Nat
  tokens : List token
  deriving DecidableEq, Repr

/-- Per-session state (`struct authstate`). -/
structure authstate where
  token : Option DhcpcdAuth.token
  replay : Nat
  reconf : Option DhcpcdAuth.token
  deriving DecidableEq, Repr

/-- Error kinds, named by the `errno` values the C code assigns. -/
inductive AuthErr where
  | EINVAL | ERANGE | EPERM | ENOTSUP | ESRCH | EFAULT | ENOENT | ENOSYS | ENOBUFS
  deriving DecidableEq, Repr

instance {E A : Type} [DecidableEq E] [DecidableEq A] : DecidableEq (Except E A) :=
  fun a b =>
    match a, b with
    | .error e1, .error e2 =>
      if h : e1 = e2 then isTrue (by rw [h]) else
        isFalse (fun hc => h (Except.error.inj hc))
    | .ok v1, .ok v2 =>
      if h : v1 = v2 then isTrue (by rw [h]) else
        isFalse (fun hc => h (Except.ok.inj hc))
    | .error _, .ok _ => isFalse (fun hc => Except.noConfusion hc)
    | .ok _, .error _ => isFalse (fun hc => Except.noConfusion hc)

/-- The `TAILQ_FOREACH` scan of `dhcp_auth_validate` (src/auth.c:228-234):
first token whose `secretid` and realm match (an empty realm matches only an
empty realm; `memcmp` over equal lengths is list equality). -/
def findToken (ts : List token) (secretid : Nat) (realm : List Nat) :
    Option token :=
  ts.find? (fun t => t.secretid == secretid && t.realm.length == realm.length &&
    (t.realm.length == 0 || t.realm == realm))

/- ### Replay counter (`get_next_rdm_monotonic`, src/auth.c:302-347) -/
/-- Value of an ASCII digit character under `base`, if it is one
(models the digit acceptance of `strtoull`). -/
def digitVal (base c : Nat) : Option Nat :=
  if 48 ≤ c ∧ c ≤ 57 ∧ c - 48 < base then some (c - 48)
  else if 97 ≤ c ∧ c ≤ 102 ∧ c - 87 < base then some (c - 87)
  else if 65 ≤ c ∧ c ≤ 70 ∧ c - 55 < base then some (c - 55)
  else none

/-- Accumulate digits under `base` until the first non-digit, like
`strtoull`'s main loop (overflow saturation is applied by the caller). -/
def parseUns (base : Nat) (acc : Nat) : List Nat → Nat
  | [] => acc
  | c :: cs =>
    match digitVal base c with
    | some d => parseUns base (acc * base + d) cs
    | none => acc

/-- C `strtoull(line, &ep, 0)`: a `0x`/`0X` prefix selects base 16, a bare
leading `0` base 8, otherwise base 10; on overflow the result saturates at
`ULLONG_MAX`.  (Leading whitespace and signs never occur in the counter
file and are not modelled.) -/
def strtoull0 (s : List Nat) : Nat :=
  let v :=
    if s.getD 0 0 = 48 ∧ (s.getD 1 0 = 120 ∨ s.getD 1 0 = 88) then
      parseUns 16 0 (s.drop 2)
    else if s.getD 0 0 = 48 then parseUns 8 0 (s.drop 1)
    else parseUns 10 0 s
  min v (2 ^ 64 - 1)

/-- The bytes `fprintf(fp, "0x%016" PRIu64 "\n", rdm)` writes: the two
characters `0x`, then the counter in DECIMAL, zero-padded to 16 digits, then
a newline.  (`PRIu64` is an unsigned-decimal conversion; the `0x` prefix
does not change that.) -/
def rdmFileContent (n : Nat) : List Nat :=
  [48, 120] ++ (List.range 16).map (fun j => 48 + n / 10 ^ (15 - j) % 10) ++ [10]

/-- Follows the spec's words (§4.4 step 5, §6): the file content a
spec-faithful implementation would write, `0x` followed by the counter as 16
zero-padded HEXADECIMAL digits and a newline.  Kept separate from
`rdmFileContent` (translated from the source) so the two can be compared. -/
def specHexFileContent (n : Nat) : List Nat :=
  [48, 120] ++ (List.range 16).map (fun j =>
    let d := n / 16 ^ (15 - j) % 16
    if d < 10 then 48 + d else 87 + d) ++ [10]

/-- Process-wide state the counter touches: the backing file (`none` when
absent) plus the `last_rdm` / `last_rdm_set` statics (src/auth.c:302-303). -/
structure RdmSt where
  file : Option (List Nat)
  last_rdm : Nat
  last_rdm_set : Bool
  deriving DecidableEq, Repr

/-- Environment outcomes of one call's file operations: `openFail` makes
`fopen(file, "r+")` fail with `errno ≠ ENOENT` although the file exists,
`createFail` makes the creating `fopen(file, "w")` fail, `writeFail` makes
the `fseek`/`ftruncate`/`fprintf` step fail. -/
structure RdmEvent where
  openFail : Bool
  createFail : Bool
  writeFail : Bool
  deriving DecidableEq, Repr

/-- The increment-and-rewrite tail of `get_next_rdm_monotonic`
(src/auth.c:330-346), after the current value `rdm0` has been read.  On a
write failure the file is modelled as truncated (`ftruncate` succeeded,
`fprintf` failed) and the in-process fallback `last_rdm`/`last_rdm_set`
logic of src/auth.c:335-339 runs.  The `fprintf(...) != 19` length test also
fires for counters of more than 16 decimal digits; that subcase is folded
into `writeFail`. -/
def rdmWriteStep (ev : RdmEvent) (rdm0 : Nat) (st : RdmSt) : Nat × RdmSt :=
  let rdm := (rdm0 + 1) % 2 ^ 64
  if ev.writeFail then
    if ¬st.last_rdm_set then
      (rdm, { st with file := some [], last_rdm := rdm, last_rdm_set := true })
    else
      let v := (st.last_rdm + 1) % 2 ^ 64
      (v, { st with file := some [], last_rdm := v })
  else
    (rdm, { st with file := some (rdmFileContent rdm) })

/-- `get_next_rdm_monotonic` (src/auth.c:304-347).  Returns the value handed
to the encoder together with the updated process/file state.  `get_line`
(repository code not under `src/`) is modelled from the spec §4.4 step 3:
read the current textual representation — the first line of the file — and
parse it, starting from 0 when the file is empty or freshly created. -/
def get_next_rdm_monotonic (ev : RdmEvent) (st : RdmSt) : Nat × RdmSt :=
  match st.file, ev.openFail with
  | none, _ =>
    -- fopen "r+" failed with ENOENT; try to create the file
    if ev.createFail then
      let v := (st.last_rdm + 1) % 2 ^ 64
      (v, { st with last_rdm := v })
    else
      rdmWriteStep ev 0 { st with file := some [] }
  | some _, true =>
    -- fopen "r+" failed with errno ≠ ENOENT
    let v := (st.last_rdm + 1) % 2 ^ 64
    (v, { st with last_rdm := v })
  | some content, false =>
    let line := content.takeWhile (fun c => c ≠ 10)
    let rdm0 := if line = [] then 0 else strtoull0 line
    rdmWriteStep ev rdm0 st

/- ### Validator (`dhcp_auth_validate`, src/auth.c:83-300) -/
/-- The `gottoken:` tail of `dhcp_auth_validate` (src/auth.c:248-299): pin
check, then either the direct key comparison (TOKEN protocol) or the
HMAC verification over a copy of the message with the MAC slot zeroed and —
for DHCPv4 — `hwopcount` and `giaddr` zeroed too, then the success
assignment to `state`.  `(pos, rem)` are the offset and length of `d`/`dlen`
at the moment of the jump.  In the final `memcmp(d, &hmac, dlen)` the C
reads past its 16-byte digest buffer whenever `dlen > 16` (undefined
behaviour, reachable only for DELAYED options longer than the encoder
produces); the model compares against the 16 digest bytes, which then never
match. -/
def validate_gottoken (h : List Nat → List Nat → List Nat)
    (state : authstate) (m : List Nat) (mp : Nat)
    (protocol algorithm replay : Nat) (t : token) (pos rem : Nat) :
    Except AuthErr token × authstate :=
  if state.token.isSome ∧ state.token ≠ some t then
    (.error .EPERM, state)
  else if protocol = AUTH_PROTO_TOKEN then
    if rem ≠ t.key.length ∨ readBytes m pos rem ≠ t.key then
      (.error .EPERM, state)
    else (.ok t, { state with replay := replay, token := some t })
  else
    let mm := writeBytes m pos (List.replicate rem 0)
    let mm := if mp = 4 then
        writeBytes (writeBytes mm off_hwopcount [0]) off_giaddr [0, 0, 0, 0]
      else mm
    if algorithm = AUTH_ALG_HMAC_MD5 then
      if readBytes m pos rem ≠ (to16 (h mm t.key)).take rem then
        (.error .EPERM, state)
      else (.ok t, { state with replay := replay, token := some t })
    else (.error .ENOSYS, state)

/-- Token lookup of `dhcp_auth_validate` (src/auth.c:226-246) followed by
the jump to `validate_gottoken`: find the first matching token, check its
expiry against `now`, continue. -/
def validate_lookup (h : List Nat → List Nat → List Nat) (now : Nat)
    (state : authstate) (a : auth) (m : List Nat) (mp : Nat)
    (protocol algorithm replay : Nat) (secretid : Nat) (realm : List Nat)
    (pos rem : Nat) : Except AuthErr token × authstate :=
  match findToken a.tokens secretid realm with
  | none => (.error .ESRCH, state)
  | some t =>
    if t.expire ≠ 0 ∧ t.expire < now then (.error .EFAULT, state)
    else validate_gottoken h state m mp protocol algorithm replay t pos rem

/-- The `switch (protocol)` of `dhcp_auth_validate` (src/auth.c:144-224):
extract realm and secret id according to the protocol — the rest of the data
is the MAC — then continue with the lookup, or run the RECONF_KEY
subprotocol. -/
def validate_protocol_switch (h : List Nat → List Nat → List Nat) (now : Nat)
    (state : authstate) (a : auth) (m : List Nat) (mp mt : Nat)
    (dOff dlen : Nat) (protocol algorithm replay : Nat) :
    Except AuthErr token × authstate :=
  if protocol = AUTH_PROTO_TOKEN then
    validate_lookup h now state a m mp protocol algorithm replay
      0 [] (dOff + 11) (dlen - 11)
  else if protocol = AUTH_PROTO_DELAYED then
    if dlen - 11 < 4 + 16 then (.error .EINVAL, state)
    else
      validate_lookup h now state a m mp protocol algorithm replay
        (beDec (readBytes m (dOff + 11) 4)) [] (dOff + 15) (dlen - 15)
  else if protocol = AUTH_PROTO_DELAYEDREALM then
    if dlen - 11 < 4 + 16 then (.error .EINVAL, state)
    else
      let realm_len := dlen - 11 - (4 + 16)
      validate_lookup h now state a m mp protocol algorithm replay
        (beDec (readBytes m (dOff + 11 + realm_len) 4))
        (readBytes m (dOff + 11) realm_len)
        (dOff + 15 + realm_len) (dlen - 15 - realm_len)
  else if protocol = AUTH_PROTO_RECONFKEY then
    if dlen - 11 ≠ 1 + 16 then (.error .EINVAL, state)
    else
      let ty := getB m (dOff + 11)
      if ty = 1 then
        if (mp = 4 ∧ mt = DHCP_ACK) ∨ (mp = 6 ∧ mt = DHCP6_REPLY) then
          -- key delivery: (re)fill state->reconf and return it
          -- (src/auth.c:180-209; allocation failures not modelled)
          let rk : token := ⟨0, [], readBytes m (dOff + 12) 16, 0⟩
          (.ok rk, { state with reconf := some rk })
        else (.error .EINVAL, state)
      else if ty = 2 then
        match state.reconf with
        | none => (.error .ENOENT, state)
        | some t =>
          validate_gottoken h state m mp protocol algorithm replay t
            (dOff + 12) 16
      else (.error .EINVAL, state)
  else (.error .ENOTSUP, state)

/-- `dhcp_auth_validate` (src/auth.c:83-300).  `h` is the external
`hmac_md5` digest function, `now` the value `time()` yields,
`(dOff, dlen)` the authentication option slice within the message `m`.
The C function returns a token pointer or `NULL` with `errno`, and mutates
`state` in place; here the pair of the `Except` result and the resulting
state is returned.  The C `goto gottoken` tail, the token lookup and the
protocol switch live in `validate_gottoken` / `validate_lookup` /
`validate_protocol_switch` above. -/
def dhcp_auth_validate (h : List Nat → List Nat → List Nat) (now : Nat)
    (state : authstate) (a : auth) (m : List Nat) (mp mt : Nat)
    (dOff dlen : Nat) : Except AuthErr token × authstate :=
  if dlen < 3 + 8 then (.error .EINVAL, state)
  else if dOff > m.length ∨ dOff + dlen > m.length then (.error .ERANGE, state)
  else
    let protocol := getB m dOff
    let algorithm := getB m (dOff + 1)
    let rdm := getB m (dOff + 2)
    if a.options &&& DHCPCD_AUTH_SEND = 0 ∧ protocol ≠ AUTH_PROTO_RECONFKEY then
      (.error .EINVAL, state)
    else if a.options &&& DHCPCD_AUTH_SEND ≠ 0 ∧
        (protocol ≠ a.protocol ∨ algorithm ≠ a.algorithm ∨ rdm ≠ a.rdm) then
      (.error .EPERM, state)
    else
      let replay := beDec (readBytes m (dOff + 3) 8)
      -- src/auth.c:133: `replay - state->replay <= 0` on uint64_t operands:
      -- an unsigned difference is ≤ 0 exactly when it is 0
      if state.token.isSome ∧ usub64 replay state.replay ≤ 0 then
        (.error .EPERM, state)
      else
        validate_protocol_switch h now state a m mp mt dOff dlen
          protocol algorithm replay

/- ### Encoder (`dhcp_auth_encode`, src/auth.c:360-551) -/
/-- The body that writes the option out (src/auth.c:449-551), entered once
the guards of `dhcp_auth_encode` have passed: write the header and the next
monotonic replay value, then the shared-secret key (TOKEN), or — for
message types that carry a computed authenticator and a known token — the
realm (DELAYED_REALM), the secret id, a zeroed MAC slot, and the digest
over the message with `hops`/`giaddr` saved, zeroed and restored when
`mp = 4`. -/
def encode_emit (h : List Nat → List Nat → List Nat) (ev : RdmEvent)
    (rst : RdmSt) (a : auth) (tok : Option token) (m : List Nat)
    (mp mt : Nat) (dOff dlen : Nat) : Except AuthErr Int × List Nat × RdmSt :=
  let m1 := writeBytes m dOff [a.protocol, a.algorithm, a.rdm]
  let r1 := get_next_rdm_monotonic ev rst
  let rdmVal := r1.1
  let rst1 := r1.2
  let m2 := writeBytes m1 (dOff + 3) (be64enc rdmVal)
  let pos := dOff + 11
  let rem := dlen - 11
  if a.protocol = AUTH_PROTO_TOKEN then
    match tok with
    | none => (.error .EINVAL, m2, rst1)
    | some t =>
      if rem < t.key.length then (.error .ENOBUFS, m2, rst1)
      else (.ok ((rem : Int) - (t.key.length : Int)),
        writeBytes m2 pos t.key, rst1)
  else if (mp = 4 ∧ (mt = DHCP_DISCOVER ∨ mt = DHCP_INFORM)) ∨
      (mp = 6 ∧ (mt = DHCP6_SOLICIT ∨ mt = DHCP6_INFORMATION_REQ)) then
    -- DISCOVER/INFORM-style messages carry no computed authenticator
    (.ok (rem : Int), m2, rst1)
  else
    match tok with
    | none => (.ok 0, m2, rst1)
    | some t =>
      if a.protocol = AUTH_PROTO_DELAYEDREALM ∧ rem < t.realm.length then
        (.error .ENOBUFS, m2, rst1)
      else
        let m3 := if a.protocol = AUTH_PROTO_DELAYEDREALM then
            writeBytes m2 pos t.realm
          else m2
        let pos1 := if a.protocol = AUTH_PROTO_DELAYEDREALM then
            pos + t.realm.length
          else pos
        let rem1 := if a.protocol = AUTH_PROTO_DELAYEDREALM then
            rem - t.realm.length
          else rem
        if rem1 < 4 then (.error .ENOBUFS, m3, rst1)
        else
          -- the C guard `protocol == DELAYED || DELAYEDREALM` around
          -- the secretid write is vacuously true on this path
          let m4 := writeBytes m3 pos1 (be32enc t.secretid)
          let pos2 := pos1 + 4
          let rem2 := rem1 - 4
          let m5 := writeBytes m4 pos2 (List.replicate rem2 0)
          let hops := getB m5 off_hwopcount
          let m6 := if mp = 4 then writeBytes m5 off_hwopcount [0] else m5
          let gia := readBytes m6 off_giaddr 4
          let m7 := if mp = 4 then writeBytes m6 off_giaddr [0, 0, 0, 0]
            else m6
          let dg := to16 (h m7 t.key)
          let m8 := writeBytes m7 pos2 dg
          let m9 := if mp = 4 then
              writeBytes (writeBytes m8 off_hwopcount [hops]) off_giaddr gia
            else m8
          (.ok ((rem2 : Int) - 16), m9, rst1)

/-- `dhcp_auth_encode` (src/auth.c:360-551).  `tok = none` models a NULL
token argument, `dOpt = none` the size-query mode (NULL data),
`dOpt = some (dOff, dlen)` the emit mode.  Returns the C `int` result (with
`dlen - sizeof(hmac)` computed as a signed value), the message buffer after
the call, and the updated replay-counter state.  In the token-selection
block `auth->protocol == 0` numerically coincides with `AUTH_PROTO_TOKEN`;
the C source writes `0` ("not set") and so does this model.  The part that
writes the option lives in `encode_emit` above. -/
def dhcp_auth_encode (h : List Nat → List Nat → List Nat) (now : Nat)
    (ev : RdmEvent) (rst : RdmSt) (a : auth) (tok : Option token)
    (m : List Nat) (mp mt : Nat) (dOpt : Option (Nat × Nat)) :
    Except AuthErr Int × List Nat × RdmSt :=
  let tsel : Except AuthErr (Option token) :=
    if a.protocol = 0 ∧ tok.isNone then
      match a.tokens.find? (fun t => t.secretid == 0 && t.realm.length == 0) with
      | none => .error .EINVAL
      | some t =>
        if t.expire ≠ 0 ∧ t.expire < now then .error .EPERM else .ok (some t)
    else .ok tok
  match tsel with
  | .error e => (.error e, m, rst)
  | .ok tok =>
    if ¬(a.protocol = AUTH_PROTO_TOKEN ∨ a.protocol = AUTH_PROTO_DELAYED ∨
        a.protocol = AUTH_PROTO_DELAYEDREALM) then
      (.error .ENOTSUP, m, rst)
    else if ¬(a.algorithm = AUTH_ALG_HMAC_MD5) then (.error .ENOTSUP, m, rst)
    else if ¬(a.rdm = AUTH_RDM_MONOTONIC) then (.error .ENOTSUP, m, rst)
    else
      match dOpt with
      | none =>
        -- size-query mode (src/auth.c:420-436); for AUTH_PROTO_TOKEN the
        -- token is never NULL here (protocol 0 forces selection above), so
        -- the total `getD 0` default is unreachable
        let dlen := 1 + 1 + 1 + 8 +
          (if a.protocol = AUTH_PROTO_TOKEN then
            (tok.map (fun t => t.key.length)).getD 0
          else
            (if a.protocol = AUTH_PROTO_DELAYEDREALM then
              (tok.map (fun t => t.realm.length)).getD 0
            else 0) +
            (if tok.isSome then 4 + 16 else 0))
        (.ok (dlen : Int), m, rst)
      | some (dOff, dlen) =>
        if dlen < 1 + 1 + 1 + 8 then (.error .ENOBUFS, m, rst)
        else if dOff > m.length ∨ dOff + dlen > m.length then
          (.error .ERANGE, m, rst)
        else encode_emit h ev rst a tok m mp mt dOff dlen

/- ### Theorems -/

/- Pointwise lemmas about the byte primitives. -/

theorem length_writeBytes (m : List Nat) (off : Nat) (bs : List Nat) :
    (writeBytes m off bs).length = m.length := by
  induction m generalizing off bs with
  | nil => cases bs <;> simp [writeBytes]
  | cons b m ih =>
    cases bs with
    | nil => simp [writeBytes]
    | cons c cs =>
      cases off with
      | zero => simpa [writeBytes] using ih 0 cs
      | succ o => simpa [writeBytes] using ih o (c :: cs)

theorem getB_nil (i : Nat) : getB [] i = 0 := by
  cases i <;> rfl

theorem getB_cons_zero (b : Nat) (m : List Nat) : getB (b :: m) 0 = b := rfl

theorem getB_cons_succ (b : Nat) (m : List Nat) (i : Nat) :
    getB (b :: m) (i + 1) = getB m i := rfl

theorem getB_writeBytes (m : List Nat) (off : Nat) (bs : List Nat) (i : Nat) :
    getB (writeBytes m off bs) i =
      if off ≤ i ∧ i < off + bs.length ∧ i < m.length then getB bs (i - off)
      else getB m i := by
  induction m generalizing off bs i with
  | nil =>
    simp [writeBytes, getB_nil]
  | cons b m ih =>
    cases bs with
    | nil =>
      rw [show writeBytes (b :: m) off [] = b :: m by simp [writeBytes]]
      rw [if_neg (by rintro ⟨h1, h2, _⟩; simp at h2; omega)]
    | cons c cs =>
      cases off with
      | zero =>
        cases i with
        | zero => simp [writeBytes, getB_cons_zero]
        | succ j =>
          rw [show writeBytes (b :: m) 0 (c :: cs) = c :: writeBytes m 0 cs from rfl]
          rw [getB_cons_succ, ih 0 cs j]
          by_cases hj : j < cs.length ∧ j < m.length
          · rw [if_pos (by omega), if_pos (by simp; omega)]
            simp [getB_cons_succ]
          · rw [if_neg (by simp at hj ⊢; omega), if_neg (by simp; simp at hj; omega)]
            simp [getB_cons_succ]
      | succ o =>
        cases i with
        | zero =>
          rw [show writeBytes (b :: m) (o + 1) (c :: cs) =
            b :: writeBytes m o (c :: cs) from rfl]
          rw [getB_cons_zero, if_neg (by rintro ⟨h1, _, _⟩; omega), getB_cons_zero]
        | succ j =>
          rw [show writeBytes (b :: m) (o + 1) (c :: cs) =
            b :: writeBytes m o (c :: cs) from rfl]
          rw [getB_cons_succ, ih o (c :: cs) j, getB_cons_succ]
          by_cases hj : o ≤ j ∧ j < o + (c :: cs).length ∧ j < m.length
          · rw [if_pos hj, if_pos (by simp; simp at hj; omega)]
            congr 1
            omega
          · rw [if_neg hj, if_neg (by simp; simp at hj; omega)]

theorem getB_writeBytes_out (m : List Nat) (off : Nat) (bs : List Nat) (i : Nat)
    (h : i < off ∨ off + bs.length ≤ i) :
    getB (writeBytes m off bs) i = getB m i := by
  rw [getB_writeBytes, if_neg]
  rintro ⟨h1, h2, _⟩; omega

theorem getB_writeBytes_in (m : List Nat) (off : Nat) (bs : List Nat) (i : Nat)
    (h1 : off ≤ i) (h2 : i < off + bs.length) (h3 : i < m.length) :
    getB (writeBytes m off bs) i = getB bs (i - off) := by
  rw [getB_writeBytes, if_pos ⟨h1, h2, h3⟩]

theorem length_readBytes (m : List Nat) (off n : Nat) :
    (readBytes m off n).length = n := by
  simp [readBytes]

theorem getB_readBytes (m : List Nat) (off n j : Nat) :
    getB (readBytes m off n) j = if j < n then getB m (off + j) else 0 := by
  unfold readBytes getB
  rcases Nat.lt_or_ge j n with h | h
  · rw [List.getD_eq_getElem _ _ (by simpa using h)]
    simp [h]
  · rw [List.getD_eq_default _ _ (by simpa using h), if_neg (by omega)]

theorem ext_getB {m1 m2 : List Nat} (hl : m1.length = m2.length)
    (h : ∀ i, i < m1.length → getB m1 i = getB m2 i) : m1 = m2 := by
  apply List.ext_getElem hl
  intro i h1 h2
  have := h i h1
  rwa [getB, getB, List.getD_eq_getElem _ _ h1, List.getD_eq_getElem _ _ h2] at this

theorem readBytes_congr {m1 m2 : List Nat} {off1 off2 n : Nat}
    (h : ∀ j, j < n → getB m1 (off1 + j) = getB m2 (off2 + j)) :
    readBytes m1 off1 n = readBytes m2 off2 n := by
  apply ext_getB (by simp [length_readBytes])
  intro i hi
  rw [length_readBytes] at hi
  rw [getB_readBytes, getB_readBytes, if_pos hi, if_pos hi]
  exact h i hi

theorem readBytes_writeBytes_self (m : List Nat) (off : Nat) (bs : List Nat)
    (h : off + bs.length ≤ m.length) :
    readBytes (writeBytes m off bs) off bs.length = bs := by
  apply ext_getB (by simp [length_readBytes])
  intro i hi
  rw [length_readBytes] at hi
  rw [getB_readBytes, if_pos hi,
    getB_writeBytes_in _ _ _ _ (by omega) (by omega) (by omega)]
  congr 1
  omega

theorem readBytes_writeBytes_out (m : List Nat) (off : Nat) (bs : List Nat)
    (off' n : Nat) (h : off' + n ≤ off ∨ off + bs.length ≤ off') :
    readBytes (writeBytes m off bs) off' n = readBytes m off' n := by
  apply readBytes_congr
  intro j hj
  exact getB_writeBytes_out _ _ _ _ (by omega)

theorem writeBytes_writeBytes_same (m : List Nat) (off : Nat) (b1 b2 : List Nat)
    (h : b1.length = b2.length) :
    writeBytes (writeBytes m off b1) off b2 = writeBytes m off b2 := by
  apply ext_getB (by simp [length_writeBytes])
  intro i hi
  simp only [length_writeBytes] at hi
  simp only [getB_writeBytes, length_writeBytes]
  split_ifs <;> first | rfl | omega

theorem writeBytes_comm (m : List Nat) (off1 off2 : Nat) (b1 b2 : List Nat)
    (h : off1 + b1.length ≤ off2 ∨ off2 + b2.length ≤ off1) :
    writeBytes (writeBytes m off1 b1) off2 b2 =
      writeBytes (writeBytes m off2 b2) off1 b1 := by
  apply ext_getB (by simp [length_writeBytes])
  intro i hi
  simp only [length_writeBytes] at hi
  simp only [getB_writeBytes, length_writeBytes]
  split_ifs <;> first | rfl | omega

theorem writeBytes_append (m : List Nat) (off : Nat) (b1 b2 : List Nat) :
    writeBytes (writeBytes m off b1) (off + b1.length) b2 =
      writeBytes m off (b1 ++ b2) := by
  apply ext_getB (by simp [length_writeBytes])
  intro i hi
  simp only [length_writeBytes] at hi
  simp only [getB_writeBytes, length_writeBytes, List.length_append]
  by_cases hc2 : off + b1.length ≤ i ∧ i < off + b1.length + b2.length ∧
      i < m.length
  · rw [if_pos hc2, if_pos (show off ≤ i ∧ i < off + (b1.length + b2.length) ∧
      i < m.length by omega)]
    unfold getB
    rw [List.getD_append_right _ _ _ _ (by omega)]
    congr 1
    omega
  · rw [if_neg hc2]
    by_cases hc1 : off ≤ i ∧ i < off + b1.length ∧ i < m.length
    · rw [if_pos hc1, if_pos (show off ≤ i ∧ i < off + (b1.length + b2.length) ∧
        i < m.length by omega)]
      unfold getB
      rw [List.getD_append _ _ _ _ (by omega)]
    · rw [if_neg hc1, if_neg (by omega)]

theorem length_be64enc (v : Nat) : (be64enc v).length = 8 := by
  simp [be64enc]

theorem length_be32enc (v : Nat) : (be32enc v).length = 4 := by
  simp [be32enc]

theorem beDec_be64enc (v : Nat) : beDec (be64enc v) = v % 2 ^ 64 := by
  have h8 : List.range 8 = [0, 1, 2, 3, 4, 5, 6, 7] := by decide
  simp only [be64enc, beDec, h8, List.map_cons, List.map_nil, List.foldl_cons,
    List.foldl_nil]
  norm_num
  omega

theorem beDec_be32enc (v : Nat) : beDec (be32enc v) = v % 2 ^ 32 := by
  have h4 : List.range 4 = [0, 1, 2, 3] := by decide
  simp only [be32enc, beDec, h4, List.map_cons, List.map_nil, List.foldl_cons,
    List.foldl_nil]
  norm_num
  omega

theorem length_to16 (bs : List Nat) : (to16 bs).length = 16 := by
  simp [to16]
  omega


/-- C1: the claim says a received replay value less than or equal to
`state.replay` yields *denied* and only a strictly greater value is
accepted.  The source compares the unsigned 64-bit difference
`replay - state->replay <= 0` (src/auth.c:133), which holds only on
equality: here a pinned state with `replay = 5` ACCEPTS an otherwise-valid
TOKEN message carrying the strictly smaller replay value 3, returning the
token and lowering the stored baseline to 3, where the claim (and RFC 3118
monotonic replay detection) requires *denied*.  (Replaying the very same
message, `replay = 5`, is still denied, as the equal-values subcase of the
comparison does fire.) -/
theorem validate_accepts_strictly_smaller_replay :
    dhcp_auth_validate (fun _ _ => List.replicate 16 7) 0
      ⟨some ⟨0, [], [104, 105], 0⟩, 5, none⟩
      ⟨1, 0, 1, 0, [⟨0, [], [104, 105], 0⟩]⟩
      [0, 1, 0, 0, 0, 0, 0, 0, 0, 0, 3, 104, 105] 4 5 0 13
    = (.ok ⟨0, [], [104, 105], 0⟩, ⟨some ⟨0, [], [104, 105], 0⟩, 3, none⟩) := by
  decide

/-- C3: the claim says every `next()` value is strictly greater than every
previously returned value within the process, including when a file step
fails.  In the source the open-failure fallback `return ++last_rdm`
(src/auth.c:315) never seeds `last_rdm` from the file, so in a fresh
process whose counter file holds `100` the first call returns 101 and a
second call whose `fopen` fails with `errno ≠ ENOENT` returns 1 < 101. -/
theorem rdm_fallback_returns_smaller_value :
    (get_next_rdm_monotonic ⟨false, false, false⟩
      ⟨some [49, 48, 48, 10], 0, false⟩).1 = 101 ∧
    (get_next_rdm_monotonic ⟨true, false, false⟩
      (get_next_rdm_monotonic ⟨false, false, false⟩
        ⟨some [49, 48, 48, 10], 0, false⟩).2).1 = 1 := by
  decide

/-- C4: the claim says a successful `next()` leaves `0x` followed by the
counter as 16 zero-padded HEXADECIMAL digits and a newline.  The source
prints `"0x%016" PRIu64` (src/auth.c:333), i.e. DECIMAL digits after the
hex marker: starting from a file holding `254`, the updated file reads
`0x0000000000000255\n` — 19 bytes, but not the hexadecimal form
`0x00000000000000ff\n` of the counter value 255 (and `strtoull(..., 0)`
would parse it back as 0x255 = 597). -/
theorem rdm_file_prints_decimal_not_hex :
    (get_next_rdm_monotonic ⟨false, false, false⟩
      ⟨some [50, 53, 52], 0, false⟩).2.file = some (rdmFileContent 255) ∧
    (rdmFileContent 255).length = 19 ∧
    rdmFileContent 255 ≠ specHexFileContent 255 ∧
    strtoull0 ((rdmFileContent 255).takeWhile (fun c => c ≠ 10)) = 597 := by
  decide

/- Error paths leave the state untouched, stage by stage. -/

theorem gottoken_error_state (h : List Nat → List Nat → List Nat)
    (state : authstate) (m : List Nat) (mp protocol algorithm replay : Nat)
    (t : token) (pos rem : Nat) (r : Except AuthErr token) (st' : authstate)
    (e : AuthErr)
    (hrun : validate_gottoken h state m mp protocol algorithm replay t pos rem
      = (r, st'))
    (herr : r = .error e) : st' = state := by
  unfold validate_gottoken at hrun
  repeat' first
    | split at hrun
    | dsimp only [] at hrun
  all_goals injection hrun with h1 h2
  all_goals subst h2
  all_goals first | rfl | simp [herr] at h1

theorem lookup_error_state (h : List Nat → List Nat → List Nat) (now : Nat)
    (state : authstate) (a : auth) (m : List Nat)
    (mp protocol algorithm replay : Nat) (secretid : Nat) (realm : List Nat)
    (pos rem : Nat) (r : Except AuthErr token) (st' : authstate) (e : AuthErr)
    (hrun : validate_lookup h now state a m mp protocol algorithm replay
      secretid realm pos rem = (r, st'))
    (herr : r = .error e) : st' = state := by
  unfold validate_lookup at hrun
  repeat' split at hrun
  · injection hrun with h1 h2; subst h2; rfl
  · injection hrun with h1 h2; subst h2; rfl
  · exact gottoken_error_state h state m mp protocol algorithm replay _
      pos rem r st' e hrun herr

theorem protocol_switch_error_state (h : List Nat → List Nat → List Nat)
    (now : Nat) (state : authstate) (a : auth) (m : List Nat) (mp mt : Nat)
    (dOff dlen : Nat) (protocol algorithm replay : Nat)
    (r : Except AuthErr token) (st' : authstate) (e : AuthErr)
    (hrun : validate_protocol_switch h now state a m mp mt dOff dlen
      protocol algorithm replay = (r, st'))
    (herr : r = .error e) : st' = state := by
  unfold validate_protocol_switch at hrun
  repeat' first
    | split at hrun
    | dsimp only [] at hrun
  all_goals first
    | (exact lookup_error_state _ _ _ _ _ _ _ _ _ _ _ _ _ _ _ _ hrun herr)
    | (exact gottoken_error_state _ _ _ _ _ _ _ _ _ _ _ _ _ hrun herr)
    | (injection hrun with h1 h2; subst h2; first | rfl | simp [herr] at h1)

/-- C5: whenever `dhcp_auth_validate` returns an error — malformed,
out-of-range, denied, unsupported, not-found or expired — the `AuthState`
it was given is returned unchanged: `state.token`, `state.replay` and
`state.reconf` are only assigned on the success paths. -/
theorem validate_error_preserves_state (h : List Nat → List Nat → List Nat)
    (now : Nat) (state : authstate) (a : auth) (m : List Nat) (mp mt : Nat)
    (dOff dlen : Nat) (r : Except AuthErr token) (st' : authstate) (e : AuthErr)
    (hrun : dhcp_auth_validate h now state a m mp mt dOff dlen = (r, st'))
    (herr : r = .error e) : st' = state := by
  unfold dhcp_auth_validate at hrun
  repeat' first
    | split at hrun
    | dsimp only [] at hrun
  all_goals first
    | (exact protocol_switch_error_state _ _ _ _ _ _ _ _ _ _ _ _ _ _ _
        hrun herr)
    | (injection hrun with h1 h2; subst h2; rfl)

/-- C5 witness: a too-short option (`dlen = 0`) errors with EINVAL and the
state comes back untouched. -/
theorem validate_error_preserves_state_witness :
    (dhcp_auth_validate (fun _ _ => []) 0 ⟨none, 3, none⟩ ⟨1, 0, 1, 0, []⟩
      [] 4 1 0 0).1 = .error .EINVAL ∧
    (dhcp_auth_validate (fun _ _ => []) 0 ⟨none, 3, none⟩ ⟨1, 0, 1, 0, []⟩
      [] 4 1 0 0).2 = ⟨none, 3, none⟩ := by
  refine ⟨by decide, ?_⟩
  exact validate_error_preserves_state (fun _ _ => []) 0 ⟨none, 3, none⟩
    ⟨1, 0, 1, 0, []⟩ [] 4 1 0 0 _ _ .EINVAL rfl (by decide)

/- Once pinned, `state.token` survives any validate call unchanged. -/

theorem gottoken_token_stable (h : List Nat → List Nat → List Nat)
    (state : authstate) (m : List Nat) (mp protocol algorithm replay : Nat)
    (t' : token) (pos rem : Nat) (t0 : token) (Hpin : state.token = some t0) :
    (validate_gottoken h state m mp protocol algorithm replay t' pos rem).2.token
      = some t0 := by
  unfold validate_gottoken
  repeat' first
    | split
    | dsimp only []
  all_goals simp_all

theorem lookup_token_stable (h : List Nat → List Nat → List Nat) (now : Nat)
    (state : authstate) (a : auth) (m : List Nat)
    (mp protocol algorithm replay : Nat) (secretid : Nat) (realm : List Nat)
    (pos rem : Nat) (t0 : token) (Hpin : state.token = some t0) :
    (validate_lookup h now state a m mp protocol algorithm replay
      secretid realm pos rem).2.token = some t0 := by
  unfold validate_lookup
  split
  · simp [Hpin]
  · split
    · simp [Hpin]
    · exact gottoken_token_stable h state m mp protocol algorithm replay _
        pos rem t0 Hpin

theorem switch_token_stable (h : List Nat → List Nat → List Nat) (now : Nat)
    (state : authstate) (a : auth) (m : List Nat) (mp mt : Nat)
    (dOff dlen : Nat) (protocol algorithm replay : Nat) (t0 : token)
    (Hpin : state.token = some t0) :
    (validate_protocol_switch h now state a m mp mt dOff dlen
      protocol algorithm replay).2.token = some t0 := by
  unfold validate_protocol_switch
  repeat' first
    | split
    | dsimp only []
  all_goals first
    | (exact lookup_token_stable h now state a m mp protocol algorithm _ _ _
        _ _ t0 Hpin)
    | (exact gottoken_token_stable h state m mp protocol algorithm _ _ _ _
        t0 Hpin)
    | simp [Hpin]

/-- A successful `gottoken` returns exactly the token it was entered with. -/
theorem gottoken_ok_payload (h : List Nat → List Nat → List Nat)
    (state : authstate) (m : List Nat) (mp protocol algorithm replay : Nat)
    (t' : token) (pos rem : Nat) (t : token)
    (Hok : (validate_gottoken h state m mp protocol algorithm replay t'
      pos rem).1 = .ok t) : t' = t := by
  unfold validate_gottoken at Hok
  repeat' first
    | split at Hok
    | dsimp only [] at Hok
  all_goals simp_all

/-- With a pinned state, `gottoken` on a different token is denied at once
(src/auth.c:250-253). -/
theorem gottoken_pin_denies (h : List Nat → List Nat → List Nat)
    (state : authstate) (m : List Nat) (mp protocol algorithm replay : Nat)
    (t' : token) (pos rem : Nat) (t0 : token)
    (Hpin : state.token = some t0) (Hne : t' ≠ t0) :
    validate_gottoken h state m mp protocol algorithm replay t' pos rem =
      (.error .EPERM, state) := by
  unfold validate_gottoken
  rw [if_pos]
  exact ⟨by simp [Hpin], by simp [Hpin]; exact fun hh => Hne hh.symm⟩

theorem lookup_pin_denies (h : List Nat → List Nat → List Nat) (now : Nat)
    (state : authstate) (a : auth) (m : List Nat)
    (mp protocol algorithm replay : Nat) (secretid : Nat) (realm : List Nat)
    (pos rem : Nat) (t0 t : token)
    (Hpin : state.token = some t0) (Hne : t ≠ t0)
    (Hok : (validate_lookup h now ⟨none, state.replay, state.reconf⟩ a m mp
      protocol algorithm replay secretid realm pos rem).1 = .ok t) :
    validate_lookup h now state a m mp protocol algorithm replay
      secretid realm pos rem = (.error .EPERM, state) := by
  unfold validate_lookup at Hok ⊢
  cases hft : findToken a.tokens secretid realm with
  | none =>
    rw [hft] at Hok
    simp at Hok
  | some t' =>
    rw [hft] at Hok
    dsimp only [] at Hok ⊢
    by_cases hexp : t'.expire ≠ 0 ∧ t'.expire < now
    · rw [if_pos hexp] at Hok; simp at Hok
    · rw [if_neg hexp] at Hok ⊢
      have ht : t' = t := gottoken_ok_payload h _ m mp protocol algorithm
        replay t' pos rem t Hok
      exact gottoken_pin_denies h state m mp protocol algorithm replay t'
        pos rem t0 Hpin (ht ▸ Hne)

theorem switch_pin_denies (h : List Nat → List Nat → List Nat) (now : Nat)
    (state : authstate) (a : auth) (m : List Nat) (mp mt : Nat)
    (dOff dlen : Nat) (protocol algorithm replay : Nat) (t0 t : token)
    (Hpin : state.token = some t0) (Hne : t ≠ t0)
    (Hok : (validate_protocol_switch h now ⟨none, state.replay, state.reconf⟩
      a m mp mt dOff dlen protocol algorithm replay).1 = .ok t)
    (Hpins : (validate_protocol_switch h now ⟨none, state.replay, state.reconf⟩
      a m mp mt dOff dlen protocol algorithm replay).2.token = some t) :
    validate_protocol_switch h now state a m mp mt dOff dlen
      protocol algorithm replay = (.error .EPERM, state) := by
  unfold validate_protocol_switch at Hok Hpins ⊢
  by_cases h0 : protocol = AUTH_PROTO_TOKEN
  · rw [if_pos h0] at Hok ⊢
    exact lookup_pin_denies h now state a m mp protocol algorithm replay _ _
      _ _ t0 t Hpin Hne Hok
  · rw [if_neg h0] at Hok Hpins ⊢
    by_cases h1 : protocol = AUTH_PROTO_DELAYED
    · rw [if_pos h1] at Hok ⊢
      by_cases hl : dlen - 11 < 4 + 16
      · rw [if_pos hl] at Hok; simp at Hok
      · rw [if_neg hl] at Hok ⊢
        exact lookup_pin_denies h now state a m mp protocol algorithm replay
          _ _ _ _ t0 t Hpin Hne Hok
    · rw [if_neg h1] at Hok Hpins ⊢
      by_cases h3 : protocol = AUTH_PROTO_DELAYEDREALM
      · rw [if_pos h3] at Hok ⊢
        by_cases hl : dlen - 11 < 4 + 16
        · rw [if_pos hl] at Hok; simp at Hok
        · rw [if_neg hl] at Hok ⊢
          dsimp only [] at Hok ⊢
          exact lookup_pin_denies h now state a m mp protocol algorithm
            replay _ _ _ _ t0 t Hpin Hne Hok
      · rw [if_neg h3] at Hok Hpins ⊢
        by_cases h2 : protocol = AUTH_PROTO_RECONFKEY
        · rw [if_pos h2] at Hok Hpins ⊢
          by_cases hl : dlen - 11 ≠ 1 + 16
          · rw [if_pos hl] at Hok; simp at Hok
          · rw [if_neg hl] at Hok Hpins ⊢
            dsimp only [] at Hok Hpins ⊢
            by_cases hty1 : getB m (dOff + 11) = 1
            · rw [if_pos hty1] at Hok Hpins ⊢
              by_cases hacc : (mp = 4 ∧ mt = DHCP_ACK) ∨
                  (mp = 6 ∧ mt = DHCP6_REPLY)
              · rw [if_pos hacc] at Hpins; simp at Hpins
              · rw [if_neg hacc] at Hok; simp at Hok
            · rw [if_neg hty1] at Hok ⊢
              by_cases hty2 : getB m (dOff + 11) = 2
              · rw [if_pos hty2] at Hok ⊢
                cases hrc : state.reconf with
                | none =>
                  rw [hrc] at Hok
                  simp at Hok
                | some t' =>
                  rw [hrc] at Hok
                  dsimp only [] at Hok ⊢
                  have ht : t' = t := gottoken_ok_payload h _ m mp protocol
                    algorithm replay t' _ 16 t Hok
                  exact gottoken_pin_denies h state m mp protocol algorithm
                    replay t' _ 16 t0 Hpin (ht ▸ Hne)
              · rw [if_neg hty2] at Hok; simp at Hok
        · rw [if_neg h2] at Hok; simp at Hok

/-- When the length, range, policy and replay guards all pass, validation is
the protocol switch applied to the parsed header fields. -/
theorem validate_reaches_protocol_switch (h : List Nat → List Nat → List Nat)
    (now : Nat) (state : authstate) (a : auth) (m : List Nat) (mp mt : Nat)
    (dOff dlen : Nat)
    (Hd : ¬dlen < 3 + 8)
    (Hrange : dOff + dlen ≤ m.length)
    (Hp1 : ¬(a.options &&& DHCPCD_AUTH_SEND = 0 ∧
      getB m dOff ≠ AUTH_PROTO_RECONFKEY))
    (Hp2 : ¬(a.options &&& DHCPCD_AUTH_SEND ≠ 0 ∧
      (getB m dOff ≠ a.protocol ∨ getB m (dOff + 1) ≠ a.algorithm ∨
       getB m (dOff + 2) ≠ a.rdm)))
    (Hfresh : ¬(state.token.isSome ∧
      usub64 (beDec (readBytes m (dOff + 3) 8)) state.replay ≤ 0)) :
    dhcp_auth_validate h now state a m mp mt dOff dlen =
      validate_protocol_switch h now state a m mp mt dOff dlen
        (getB m dOff) (getB m (dOff + 1)) (beDec (readBytes m (dOff + 3) 8)) := by
  unfold dhcp_auth_validate
  rw [if_neg Hd,
    if_neg (show ¬(dOff > m.length ∨ dOff + dlen > m.length) by omega)]
  dsimp only []
  rw [if_neg Hp1, if_neg Hp2, if_neg Hfresh]

/-- When token selection and the three policy guards pass and the target
buffer is large enough and in range, encoding is `encode_emit`. -/
theorem encode_reaches_emit (h : List Nat → List Nat → List Nat) (now : Nat)
    (ev : RdmEvent) (rst : RdmSt) (a : auth) (tok : Option token)
    (m : List Nat) (mp mt : Nat) (dOff dlen : Nat)
    (Hsel : ¬(a.protocol = 0 ∧ tok.isNone))
    (Hp : a.protocol = AUTH_PROTO_TOKEN ∨ a.protocol = AUTH_PROTO_DELAYED ∨
      a.protocol = AUTH_PROTO_DELAYEDREALM)
    (Ha : a.algorithm = AUTH_ALG_HMAC_MD5) (Hr : a.rdm = AUTH_RDM_MONOTONIC)
    (Hd : ¬dlen < 1 + 1 + 1 + 8)
    (Hrange : dOff + dlen ≤ m.length) :
    dhcp_auth_encode h now ev rst a tok m mp mt (some (dOff, dlen)) =
      encode_emit h ev rst a tok m mp mt dOff dlen := by
  unfold dhcp_auth_encode
  rw [if_neg Hsel]
  dsimp only []
  rw [if_neg (not_not_intro Hp), if_neg (not_not_intro Ha),
    if_neg (not_not_intro Hr), if_neg Hd,
    if_neg (show ¬(dOff > m.length ∨ dOff + dlen > m.length) by omega)]

/-- TOKEN-protocol emit (src/auth.c:468-479): header, replay, then the raw
key; the remainder of the message is untouched. -/
theorem encode_emit_token_eq (h : List Nat → List Nat → List Nat)
    (ev : RdmEvent) (rst : RdmSt) (a : auth) (t : token) (m : List Nat)
    (mp mt : Nat) (dOff dlen : Nat)
    (Hp : a.protocol = AUTH_PROTO_TOKEN)
    (Hcap : ¬dlen - 11 < t.key.length) :
    encode_emit h ev rst a (some t) m mp mt dOff dlen =
      (.ok (((dlen - 11 : Nat) : Int) - (t.key.length : Int)),
       writeBytes (writeBytes (writeBytes m dOff
           [a.protocol, a.algorithm, a.rdm])
         (dOff + 3) (be64enc (get_next_rdm_monotonic ev rst).1))
         (dOff + 11) t.key,
       (get_next_rdm_monotonic ev rst).2) := by
  unfold encode_emit
  dsimp only []
  rw [if_pos Hp, if_neg Hcap]

/-- Emit for message types that must not carry a computed authenticator
(src/auth.c:482-485): only the header and the replay value are written. -/
theorem encode_emit_skipmt_eq (h : List Nat → List Nat → List Nat)
    (ev : RdmEvent) (rst : RdmSt) (a : auth) (tok : Option token)
    (m : List Nat) (mp mt : Nat) (dOff dlen : Nat)
    (Hp : a.protocol ≠ AUTH_PROTO_TOKEN)
    (Hmt : (mp = 4 ∧ (mt = DHCP_DISCOVER ∨ mt = DHCP_INFORM)) ∨
      (mp = 6 ∧ (mt = DHCP6_SOLICIT ∨ mt = DHCP6_INFORMATION_REQ))) :
    encode_emit h ev rst a tok m mp mt dOff dlen =
      (.ok ((dlen - 11 : Nat) : Int),
       writeBytes (writeBytes m dOff [a.protocol, a.algorithm, a.rdm])
         (dOff + 3) (be64enc (get_next_rdm_monotonic ev rst).1),
       (get_next_rdm_monotonic ev rst).2) := by
  unfold encode_emit
  dsimp only []
  rw [if_neg Hp, if_pos Hmt]

/-- Emit with no token (a saved lease without authentication,
src/auth.c:487-489): returns 0 after header and replay. -/
theorem encode_emit_token_none_eq (h : List Nat → List Nat → List Nat)
    (ev : RdmEvent) (rst : RdmSt) (a : auth) (m : List Nat)
    (mp mt : Nat) (dOff dlen : Nat)
    (Hp : a.protocol ≠ AUTH_PROTO_TOKEN)
    (Hmt : ¬((mp = 4 ∧ (mt = DHCP_DISCOVER ∨ mt = DHCP_INFORM)) ∨
      (mp = 6 ∧ (mt = DHCP6_SOLICIT ∨ mt = DHCP6_INFORMATION_REQ)))) :
    encode_emit h ev rst a none m mp mt dOff dlen =
      (.ok 0,
       writeBytes (writeBytes m dOff [a.protocol, a.algorithm, a.rdm])
         (dOff + 3) (be64enc (get_next_rdm_monotonic ev rst).1),
       (get_next_rdm_monotonic ev rst).2) := by
  unfold encode_emit
  dsimp only []
  rw [if_neg Hp, if_neg Hmt]

/-- DELAYED-protocol emit with an authenticator (src/auth.c:502-551):
header, replay, secret id, zeroed MAC slot, digest (with the v4
`hops`/`giaddr` save-zero-restore dance). -/
theorem encode_emit_delayed_eq (h : List Nat → List Nat → List Nat)
    (ev : RdmEvent) (rst : RdmSt) (a : auth) (t : token) (m : List Nat)
    (mp mt : Nat) (dOff dlen : Nat)
    (Hp : a.protocol = AUTH_PROTO_DELAYED)
    (Hmt : ¬((mp = 4 ∧ (mt = DHCP_DISCOVER ∨ mt = DHCP_INFORM)) ∨
      (mp = 6 ∧ (mt = DHCP6_SOLICIT ∨ mt = DHCP6_INFORMATION_REQ))))
    (Hcap : ¬dlen - 11 < 4) :
    encode_emit h ev rst a (some t) m mp mt dOff dlen =
      (let m4 := writeBytes (writeBytes (writeBytes m dOff
           [a.protocol, a.algorithm, a.rdm])
         (dOff + 3) (be64enc (get_next_rdm_monotonic ev rst).1))
         (dOff + 11) (be32enc t.secretid)
       let m5 := writeBytes m4 (dOff + 11 + 4)
         (List.replicate (dlen - 11 - 4) 0)
       let hops := getB m5 off_hwopcount
       let m6 := if mp = 4 then writeBytes m5 off_hwopcount [0] else m5
       let gia := readBytes m6 off_giaddr 4
       let m7 := if mp = 4 then writeBytes m6 off_giaddr [0, 0, 0, 0] else m6
       let dg := to16 (h m7 t.key)
       let m8 := writeBytes m7 (dOff + 11 + 4) dg
       let m9 := if mp = 4 then
           writeBytes (writeBytes m8 off_hwopcount [hops]) off_giaddr gia
         else m8
       (.ok (((dlen - 11 - 4 : Nat) : Int) - 16), m9,
        (get_next_rdm_monotonic ev rst).2)) := by
  unfold encode_emit
  dsimp only []
  rw [if_neg (by rw [Hp]; decide),
    if_neg Hmt,
    if_neg (show ¬(a.protocol = AUTH_PROTO_DELAYEDREALM ∧
      dlen - 11 < t.realm.length) by
        rw [Hp]; rintro ⟨hh, _⟩; exact absurd hh (by decide))]
  simp only [if_neg (show ¬a.protocol = AUTH_PROTO_DELAYEDREALM by
    rw [Hp]; decide)]
  rw [if_neg Hcap]

/-- DELAYED_REALM-protocol emit with an authenticator (src/auth.c:491-551):
like DELAYED with the realm written before the secret id. -/
theorem encode_emit_delayedrealm_eq (h : List Nat → List Nat → List Nat)
    (ev : RdmEvent) (rst : RdmSt) (a : auth) (t : token) (m : List Nat)
    (mp mt : Nat) (dOff dlen : Nat)
    (Hp : a.protocol = AUTH_PROTO_DELAYEDREALM)
    (Hmt : ¬((mp = 4 ∧ (mt = DHCP_DISCOVER ∨ mt = DHCP_INFORM)) ∨
      (mp = 6 ∧ (mt = DHCP6_SOLICIT ∨ mt = DHCP6_INFORMATION_REQ))))
    (Hcapr : ¬dlen - 11 < t.realm.length)
    (Hcap : ¬dlen - 11 - t.realm.length < 4) :
    encode_emit h ev rst a (some t) m mp mt dOff dlen =
      (let m4 := writeBytes (writeBytes (writeBytes (writeBytes m dOff
           [a.protocol, a.algorithm, a.rdm])
         (dOff + 3) (be64enc (get_next_rdm_monotonic ev rst).1))
         (dOff + 11) t.realm)
         (dOff + 11 + t.realm.length) (be32enc t.secretid)
       let m5 := writeBytes m4 (dOff + 11 + t.realm.length + 4)
         (List.replicate (dlen - 11 - t.realm.length - 4) 0)
       let hops := getB m5 off_hwopcount
       let m6 := if mp = 4 then writeBytes m5 off_hwopcount [0] else m5
       let gia := readBytes m6 off_giaddr 4
       let m7 := if mp = 4 then writeBytes m6 off_giaddr [0, 0, 0, 0] else m6
       let dg := to16 (h m7 t.key)
       let m8 := writeBytes m7 (dOff + 11 + t.realm.length + 4) dg
       let m9 := if mp = 4 then
           writeBytes (writeBytes m8 off_hwopcount [hops]) off_giaddr gia
         else m8
       (.ok (((dlen - 11 - t.realm.length - 4 : Nat) : Int) - 16), m9,
        (get_next_rdm_monotonic ev rst).2)) := by
  unfold encode_emit
  dsimp only []
  rw [if_neg (by rw [Hp]; decide),
    if_neg Hmt,
    if_neg (show ¬(a.protocol = AUTH_PROTO_DELAYEDREALM ∧
      dlen - 11 < t.realm.length) by rintro ⟨_, hh⟩; exact Hcapr hh)]
  simp only [if_pos Hp]
  rw [if_neg Hcap]

/-- Outside the option slice, the digest write together with the
`hops`/`giaddr` save-zero-restore sequence leaves every byte of the base
buffer unchanged. -/
theorem hg_restore_outside (mb : List Nat) (dOff dlen macPos : Nat)
    (dgsrc : List Nat) (i : Nat)
    (hmac1 : dOff ≤ macPos) (hmac2 : macPos + 16 ≤ dOff + dlen)
    (hi : i < dOff ∨ dOff + dlen ≤ i) :
    getB (writeBytes (writeBytes (writeBytes (writeBytes (writeBytes mb
        off_hwopcount [0]) off_giaddr [0, 0, 0, 0]) macPos (to16 dgsrc))
        off_hwopcount [getB mb off_hwopcount]) off_giaddr
        (readBytes (writeBytes mb off_hwopcount [0]) off_giaddr 4)) i =
      getB mb i := by
  simp only [off_hwopcount, off_giaddr, getB_writeBytes, getB_readBytes,
    length_writeBytes, length_readBytes, length_to16, List.length_cons,
    List.length_nil]
  split_ifs <;> first
    | rfl
    | omega
    | (congr 1 <;> omega)
    | (have h3 : i = 3 := by omega
       subst h3
       rfl)

/- Evaluation lemmas for the round-trip proof. -/

theorem get_next_rdm_monotonic_lt (ev : RdmEvent) (rst : RdmSt) :
    (get_next_rdm_monotonic ev rst).1 < 2 ^ 64 := by
  unfold get_next_rdm_monotonic rdmWriteStep
  repeat' first
    | split
    | dsimp only []
  all_goals exact Nat.mod_lt _ (by decide)

theorem gottoken_token_ok (h : List Nat → List Nat → List Nat)
    (state : authstate) (m : List Nat) (mp protocol algorithm replay : Nat)
    (t : token) (pos rem : Nat)
    (Hpin : ¬(state.token.isSome ∧ state.token ≠ some t))
    (HpT : protocol = AUTH_PROTO_TOKEN)
    (Hkey : ¬(rem ≠ t.key.length ∨ readBytes m pos rem ≠ t.key)) :
    validate_gottoken h state m mp protocol algorithm replay t pos rem =
      (.ok t, { state with replay := replay, token := some t }) := by
  unfold validate_gottoken
  rw [if_neg Hpin, if_pos HpT, if_neg Hkey]

theorem gottoken_hmac_ok (h : List Nat → List Nat → List Nat)
    (state : authstate) (m : List Nat) (mp protocol algorithm replay : Nat)
    (t : token) (pos rem : Nat)
    (Hpin : ¬(state.token.isSome ∧ state.token ≠ some t))
    (HpT : ¬protocol = AUTH_PROTO_TOKEN)
    (Halg : algorithm = AUTH_ALG_HMAC_MD5)
    (Hmac : readBytes m pos rem = (to16 (h (if mp = 4 then
        writeBytes (writeBytes (writeBytes m pos (List.replicate rem 0))
          off_hwopcount [0]) off_giaddr [0, 0, 0, 0]
      else writeBytes m pos (List.replicate rem 0)) t.key)).take rem) :
    validate_gottoken h state m mp protocol algorithm replay t pos rem =
      (.ok t, { state with replay := replay, token := some t }) := by
  unfold validate_gottoken
  rw [if_neg Hpin, if_neg HpT]
  dsimp only []
  rw [if_pos Halg, if_neg (not_not_intro Hmac)]

theorem lookup_found (h : List Nat → List Nat → List Nat) (now : Nat)
    (state : authstate) (a : auth) (m : List Nat)
    (mp protocol algorithm replay : Nat) (secretid : Nat) (realm : List Nat)
    (pos rem : Nat) (t : token)
    (Hfind : findToken a.tokens secretid realm = some t)
    (Hexp : ¬(t.expire ≠ 0 ∧ t.expire < now)) :
    validate_lookup h now state a m mp protocol algorithm replay
      secretid realm pos rem =
      validate_gottoken h state m mp protocol algorithm replay t pos rem := by
  unfold validate_lookup
  rw [Hfind]
  dsimp only []
  rw [if_neg Hexp]

theorem switch_token_eq (h : List Nat → List Nat → List Nat) (now : Nat)
    (state : authstate) (a : auth) (m : List Nat) (mp mt : Nat)
    (dOff dlen : Nat) (protocol algorithm replay : Nat)
    (Hpb : protocol = AUTH_PROTO_TOKEN) :
    validate_protocol_switch h now state a m mp mt dOff dlen
      protocol algorithm replay =
      validate_lookup h now state a m mp protocol algorithm replay
        0 [] (dOff + 11) (dlen - 11) := by
  unfold validate_protocol_switch
  rw [if_pos Hpb]

theorem switch_delayed_eq (h : List Nat → List Nat → List Nat) (now : Nat)
    (state : authstate) (a : auth) (m : List Nat) (mp mt : Nat)
    (dOff dlen : Nat) (protocol algorithm replay : Nat)
    (Hpb : protocol = AUTH_PROTO_DELAYED)
    (Hlen : ¬dlen - 11 < 4 + 16) :
    validate_protocol_switch h now state a m mp mt dOff dlen
      protocol algorithm replay =
      validate_lookup h now state a m mp protocol algorithm replay
        (beDec (readBytes m (dOff + 11) 4)) [] (dOff + 15) (dlen - 15) := by
  unfold validate_protocol_switch
  rw [if_neg (by rw [Hpb]; decide), if_pos Hpb, if_neg Hlen]

theorem switch_delayedrealm_eq (h : List Nat → List Nat → List Nat)
    (now : Nat) (state : authstate) (a : auth) (m : List Nat) (mp mt : Nat)
    (dOff dlen : Nat) (protocol algorithm replay : Nat)
    (Hpb : protocol = AUTH_PROTO_DELAYEDREALM)
    (Hlen : ¬dlen - 11 < 4 + 16) :
    validate_protocol_switch h now state a m mp mt dOff dlen
      protocol algorithm replay =
      validate_lookup h now state a m mp protocol algorithm replay
        (beDec (readBytes m (dOff + 11 + (dlen - 11 - (4 + 16))) 4))
        (readBytes m (dOff + 11) (dlen - 11 - (4 + 16)))
        (dOff + 15 + (dlen - 11 - (4 + 16)))
        (dlen - 15 - (dlen - 11 - (4 + 16))) := by
  unfold validate_protocol_switch
  rw [if_neg (by rw [Hpb]; decide), if_neg (by rw [Hpb]; decide),
    if_pos Hpb, if_neg Hlen]

/-- Zeroing the MAC slot of the encoded message and re-zeroing
`hops`/`giaddr` reproduces exactly the buffer the encoder hashed
(DHCPv4 case, option slice at `28 ≤ P`). -/
theorem v4_norm_absorb (m4 : List Nat) (P : Nat) (dgsrc gia : List Nat)
    (hops0 : Nat) (hg : gia.length = 4) :
    writeBytes (writeBytes (writeBytes
        (writeBytes (writeBytes (writeBytes (writeBytes (writeBytes
          (writeBytes m4 P (List.replicate 16 0)) off_hwopcount [0])
          off_giaddr [0, 0, 0, 0]) P (to16 dgsrc)) off_hwopcount [hops0])
          off_giaddr gia)
        P (List.replicate 16 0)) off_hwopcount [0]) off_giaddr [0, 0, 0, 0] =
      writeBytes (writeBytes (writeBytes m4 P (List.replicate 16 0))
        off_hwopcount [0]) off_giaddr [0, 0, 0, 0] := by
  apply ext_getB (by simp [length_writeBytes])
  intro i hi
  simp only [length_writeBytes] at hi
  simp only [off_hwopcount, off_giaddr, getB_writeBytes, length_writeBytes,
    length_to16, List.length_replicate, List.length_cons, List.length_nil, hg]
  split_ifs <;> rfl

/-- Same as `v4_norm_absorb` for the DHCPv6 case: re-zeroing the MAC slot
reproduces the hashed buffer. -/
theorem v6_norm_absorb (m4 : List Nat) (P : Nat) (dgsrc : List Nat) :
    writeBytes (writeBytes (writeBytes m4 P (List.replicate 16 0))
        P (to16 dgsrc)) P (List.replicate 16 0) =
      writeBytes m4 P (List.replicate 16 0) := by
  rw [writeBytes_writeBytes_same _ _ _ _ (by rw [List.length_replicate,
    length_to16]),
    writeBytes_writeBytes_same _ _ _ _ rfl]

/-- Taking 16 bytes of a `to16` digest buffer is the identity. -/
theorem take16_to16 (bs : List Nat) : (to16 bs).take 16 = to16 bs :=
  List.take_of_length_le (le_of_eq (length_to16 bs))

set_option maxHeartbeats 6000000 in
/-- C2: round trip over the supported matrix.  For any policy with
protocol TOKEN, DELAYED or DELAYED_REALM, algorithm HMAC-MD5 and rdm
monotonic, any matching unexpired token, any large-enough message and a
message type that carries a computed authenticator: emit-mode encode
succeeds (returns 0), writes the next monotonic replay value into bytes
3..10 of the option, and validating the resulting message with a fresh
AuthState returns Ok with the same token and stores exactly that replay
value in the state. -/
theorem encode_validate_roundtrip (h : List Nat → List Nat → List Nat)
    (now : Nat) (ev : RdmEvent) (rst : RdmSt) (a : auth) (t : token)
    (m : List Nat) (mp mt : Nat) (dOff dlen : Nat)
    (Hsend : a.options &&& DHCPCD_AUTH_SEND ≠ 0)
    (Hp : a.protocol = AUTH_PROTO_TOKEN ∨ a.protocol = AUTH_PROTO_DELAYED ∨
      a.protocol = AUTH_PROTO_DELAYEDREALM)
    (Halg : a.algorithm = AUTH_ALG_HMAC_MD5)
    (Hrdm : a.rdm = AUTH_RDM_MONOTONIC)
    (Hmp : mp = 4 ∨ mp = 6)
    (Hoff : mp = 4 → 28 ≤ dOff)
    (Hmt : ¬((mp = 4 ∧ (mt = DHCP_DISCOVER ∨ mt = DHCP_INFORM)) ∨
      (mp = 6 ∧ (mt = DHCP6_SOLICIT ∨ mt = DHCP6_INFORMATION_REQ))))
    (Hdlen : dlen = 1 + 1 + 1 + 8 +
      (if a.protocol = AUTH_PROTO_TOKEN then t.key.length
       else if a.protocol = AUTH_PROTO_DELAYEDREALM then
         t.realm.length + (4 + 16)
       else 4 + 16))
    (Hrange : dOff + dlen ≤ m.length)
    (Hsid : t.secretid < 2 ^ 32)
    (Hexp : ¬(t.expire ≠ 0 ∧ t.expire < now))
    (Hfind : findToken a.tokens
      (if a.protocol = AUTH_PROTO_TOKEN then 0 else t.secretid)
      (if a.protocol = AUTH_PROTO_DELAYEDREALM then t.realm else []) =
      some t) :
    (dhcp_auth_encode h now ev rst a (some t) m mp mt
      (some (dOff, dlen))).1 = .ok 0 ∧
    readBytes (dhcp_auth_encode h now ev rst a (some t) m mp mt
      (some (dOff, dlen))).2.1 (dOff + 3) 8 =
      be64enc (get_next_rdm_monotonic ev rst).1 ∧
    dhcp_auth_validate h now ⟨none, 0, none⟩ a
      (dhcp_auth_encode h now ev rst a (some t) m mp mt
        (some (dOff, dlen))).2.1 mp mt dOff dlen =
      (.ok t, ⟨some t, (get_next_rdm_monotonic ev rst).1, none⟩) := by
  have Hsel : ¬(a.protocol = 0 ∧ (some t).isNone) := by simp
  have hd11 : ¬dlen < 1 + 1 + 1 + 8 := by
    rw [Hdlen]; split_ifs <;> omega
  have hrvlt := get_next_rdm_monotonic_lt ev rst
  rw [encode_reaches_emit h now ev rst a (some t) m mp mt dOff dlen Hsel Hp
    Halg Hrdm hd11 Hrange]
  rcases Hp with hp0 | hp1 | hp3
  · -- AUTH_PROTO_TOKEN
    have hdl : dlen = 11 + t.key.length := by
      rw [Hdlen, if_pos hp0]
    rw [encode_emit_token_eq h ev rst a t m mp mt dOff dlen hp0 (by omega)]
    dsimp only []
    set rv := (get_next_rdm_monotonic ev rst).1 with hrv
    set mEnc := writeBytes (writeBytes (writeBytes m dOff
        [a.protocol, a.algorithm, a.rdm]) (dOff + 3) (be64enc rv))
        (dOff + 11) t.key with hmEnc
    have hb0 : getB mEnc dOff = a.protocol := by
      rw [hmEnc]
      simp only [getB_writeBytes, length_writeBytes, length_be64enc,
        List.length_cons, List.length_nil]
      split_ifs <;> first
        | (exfalso; omega)
        | (rw [Nat.sub_self]; rfl)
    have hb1 : getB mEnc (dOff + 1) = a.algorithm := by
      rw [hmEnc]
      simp only [getB_writeBytes, length_writeBytes, length_be64enc,
        List.length_cons, List.length_nil]
      split_ifs <;> first
        | (exfalso; omega)
        | (rw [show dOff + 1 - dOff = 1 from by omega]; rfl)
    have hb2 : getB mEnc (dOff + 2) = a.rdm := by
      rw [hmEnc]
      simp only [getB_writeBytes, length_writeBytes, length_be64enc,
        List.length_cons, List.length_nil]
      split_ifs <;> first
        | (exfalso; omega)
        | (rw [show dOff + 2 - dOff = 2 from by omega]; rfl)
    have hrep : readBytes mEnc (dOff + 3) 8 = be64enc rv := by
      apply ext_getB (by simp [length_readBytes, length_be64enc])
      intro i hi
      rw [length_readBytes] at hi
      rw [getB_readBytes, if_pos hi, hmEnc]
      simp only [getB_writeBytes, length_writeBytes, length_be64enc,
        List.length_cons, List.length_nil]
      split_ifs <;> first
        | (exfalso; omega)
        | (congr 1 <;> omega)
    have hkey : readBytes mEnc (dOff + 11) (dlen - 11) = t.key := by
      apply ext_getB (by rw [length_readBytes]; omega)
      intro i hi
      rw [length_readBytes] at hi
      rw [getB_readBytes, if_pos hi, hmEnc]
      simp only [getB_writeBytes, length_writeBytes, length_be64enc,
        List.length_cons, List.length_nil]
      split_ifs <;> first
        | (exfalso; omega)
        | (congr 1 <;> omega)
    refine ⟨?_, ?_, ?_⟩
    · rw [show ((dlen - 11 : Nat) : Int) - (t.key.length : Int) = 0 from
        by omega]
    · exact hrep
    · rw [validate_reaches_protocol_switch h now ⟨none, 0, none⟩ a mEnc mp mt
        dOff dlen (by omega)
        (by rw [hmEnc]; simp only [length_writeBytes]; omega)
        (by rintro ⟨hz, _⟩; exact Hsend hz)
        (by rintro ⟨_, hc⟩
            rcases hc with hc | hc | hc
            · exact hc hb0
            · exact hc hb1
            · exact hc hb2)
        (by simp)]
      rw [switch_token_eq h now ⟨none, 0, none⟩ a mEnc mp mt dOff dlen
        (getB mEnc dOff) (getB mEnc (dOff + 1))
        (beDec (readBytes mEnc (dOff + 3) 8)) (hb0.trans hp0)]
      rw [lookup_found h now ⟨none, 0, none⟩ a mEnc mp (getB mEnc dOff)
        (getB mEnc (dOff + 1)) (beDec (readBytes mEnc (dOff + 3) 8))
        0 [] (dOff + 11) (dlen - 11) t
        (by rw [if_pos hp0, if_neg (by rw [hp0]; decide)] at Hfind
            exact Hfind) Hexp]
      rw [gottoken_token_ok h ⟨none, 0, none⟩ mEnc mp (getB mEnc dOff)
        (getB mEnc (dOff + 1)) (beDec (readBytes mEnc (dOff + 3) 8)) t
        (dOff + 11) (dlen - 11) (by simp) (hb0.trans hp0)
        (by push_neg
            exact ⟨by omega, hkey⟩)]
      rw [hrep, beDec_be64enc, Nat.mod_eq_of_lt hrvlt]
  · -- AUTH_PROTO_DELAYED
    have hdl : dlen = 31 := by
      rw [Hdlen, if_neg (by rw [hp1]; decide), if_neg (by rw [hp1]; decide)]
    rw [if_neg (by rw [hp1]; decide), if_neg (by rw [hp1]; decide)] at Hfind
    rw [encode_emit_delayed_eq h ev rst a t m mp mt dOff dlen hp1 Hmt
      (by omega)]
    rcases Hmp with hmp | hmp <;> subst hmp
    · -- mp = 4
      have hoff : 28 ≤ dOff := Hoff rfl
      dsimp only []
      simp only [eq_self_iff_true, if_true]
      rw [show dOff + 11 + 4 = dOff + 15 from by omega,
        show dlen - 11 - 4 = 16 from by omega]
      set rv := (get_next_rdm_monotonic ev rst).1 with hrv
      set m4 := writeBytes (writeBytes (writeBytes m dOff
          [a.protocol, a.algorithm, a.rdm]) (dOff + 3) (be64enc rv))
          (dOff + 11) (be32enc t.secretid) with hm4
      have hm4len : m4.length = m.length := by
        rw [hm4]; simp only [length_writeBytes]
      set m5 := writeBytes m4 (dOff + 15) (List.replicate 16 0) with hm5
      set m7 := writeBytes (writeBytes m5 off_hwopcount [0]) off_giaddr
          [0, 0, 0, 0] with hm7
      set mEnc := writeBytes (writeBytes (writeBytes m7 (dOff + 15)
          (to16 (h m7 t.key))) off_hwopcount [getB m5 off_hwopcount])
          off_giaddr (readBytes (writeBytes m5 off_hwopcount [0])
          off_giaddr 4) with hmEnc
      have hb0 : getB mEnc dOff = a.protocol := by
        rw [hmEnc, hm7, hm5, hm4]
        simp only [getB_writeBytes, length_writeBytes, length_be64enc,
          length_be32enc, length_to16, length_readBytes,
          List.length_replicate, List.length_cons, List.length_nil,
          off_hwopcount, off_giaddr]
        split_ifs <;> first
          | (exfalso; omega)
          | (rw [Nat.sub_self]; rfl)
      have hb1 : getB mEnc (dOff + 1) = a.algorithm := by
        rw [hmEnc, hm7, hm5, hm4]
        simp only [getB_writeBytes, length_writeBytes, length_be64enc,
          length_be32enc, length_to16, length_readBytes,
          List.length_replicate, List.length_cons, List.length_nil,
          off_hwopcount, off_giaddr]
        split_ifs <;> first
          | (exfalso; omega)
          | (rw [show dOff + 1 - dOff = 1 from by omega]; rfl)
      have hb2 : getB mEnc (dOff + 2) = a.rdm := by
        rw [hmEnc, hm7, hm5, hm4]
        simp only [getB_writeBytes, length_writeBytes, length_be64enc,
          length_be32enc, length_to16, length_readBytes,
          List.length_replicate, List.length_cons, List.length_nil,
          off_hwopcount, off_giaddr]
        split_ifs <;> first
          | (exfalso; omega)
          | (rw [show dOff + 2 - dOff = 2 from by omega]; rfl)
      have hrep : readBytes mEnc (dOff + 3) 8 = be64enc rv := by
        apply ext_getB (by simp [length_readBytes, length_be64enc])
        intro i hi
        rw [length_readBytes] at hi
        rw [getB_readBytes, if_pos hi, hmEnc, hm7, hm5, hm4]
        simp only [getB_writeBytes, length_writeBytes, length_be64enc,
          length_be32enc, length_to16, length_readBytes,
          List.length_replicate, List.length_cons, List.length_nil,
          off_hwopcount, off_giaddr]
        split_ifs <;> first
          | (exfalso; omega)
          | (congr 1 <;> omega)
      have hsid4 : readBytes mEnc (dOff + 11) 4 = be32enc t.secretid := by
        apply ext_getB (by simp [length_readBytes, length_be32enc])
        intro i hi
        rw [length_readBytes] at hi
        rw [getB_readBytes, if_pos hi, hmEnc, hm7, hm5, hm4]
        simp only [getB_writeBytes, length_writeBytes, length_be64enc,
          length_be32enc, length_to16, length_readBytes,
          List.length_replicate, List.length_cons, List.length_nil,
          off_hwopcount, off_giaddr]
        split_ifs <;> first
          | (exfalso; omega)
          | (congr 1 <;> omega)
      refine ⟨?_, ?_, ?_⟩
      · rw [show ((16 : Nat) : Int) - 16 = 0 from by decide]
      · exact hrep
      · rw [validate_reaches_protocol_switch h now ⟨none, 0, none⟩ a mEnc 4 mt
          dOff dlen (by omega)
          (by rw [hmEnc, hm7, hm5]
              simp only [length_writeBytes]
              omega)
          (by rintro ⟨hz, _⟩; exact Hsend hz)
          (by rintro ⟨_, hc⟩
              rcases hc with hc | hc | hc
              · exact hc hb0
              · exact hc hb1
              · exact hc hb2)
          (by simp)]
        rw [switch_delayed_eq h now ⟨none, 0, none⟩ a mEnc 4 mt dOff dlen
          (getB mEnc dOff) (getB mEnc (dOff + 1))
          (beDec (readBytes mEnc (dOff + 3) 8)) (hb0.trans hp1) (by omega)]
        rw [lookup_found h now ⟨none, 0, none⟩ a mEnc 4 (getB mEnc dOff)
          (getB mEnc (dOff + 1)) (beDec (readBytes mEnc (dOff + 3) 8))
          (beDec (readBytes mEnc (dOff + 11) 4)) [] (dOff + 15) (dlen - 15) t
          (by rw [hsid4, beDec_be32enc, Nat.mod_eq_of_lt Hsid]
              exact Hfind) Hexp]
        rw [gottoken_hmac_ok h ⟨none, 0, none⟩ mEnc 4 (getB mEnc dOff)
          (getB mEnc (dOff + 1)) (beDec (readBytes mEnc (dOff + 3) 8)) t
          (dOff + 15) (dlen - 15) (by simp)
          (by rw [hb0, hp1]; decide) (hb1.trans Halg)
          (by rw [if_pos rfl, show dlen - 15 = 16 from by omega, hmEnc, hm7,
              hm5, v4_norm_absorb _ _ _ _ _ (length_readBytes _ _ _),
              take16_to16]
              apply ext_getB (by simp only [length_readBytes, length_to16])
              intro i hi
              rw [length_readBytes] at hi
              rw [getB_readBytes, if_pos hi]
              simp only [getB_writeBytes, length_writeBytes, length_to16,
                length_readBytes, List.length_replicate, List.length_cons,
                List.length_nil, off_hwopcount, off_giaddr]
              split_ifs <;> first
                | (exfalso; omega)
                | (congr 1 <;> omega))]
        rw [hrep, beDec_be64enc, Nat.mod_eq_of_lt hrvlt]
    · -- mp = 6
      dsimp only []
      simp only [if_neg (show ¬(6 : Nat) = 4 from by decide)]
      rw [show dOff + 11 + 4 = dOff + 15 from by omega,
        show dlen - 11 - 4 = 16 from by omega]
      set rv := (get_next_rdm_monotonic ev rst).1 with hrv
      set m4 := writeBytes (writeBytes (writeBytes m dOff
          [a.protocol, a.algorithm, a.rdm]) (dOff + 3) (be64enc rv))
          (dOff + 11) (be32enc t.secretid) with hm4
      have hm4len : m4.length = m.length := by
        rw [hm4]; simp only [length_writeBytes]
      set m5 := writeBytes m4 (dOff + 15) (List.replicate 16 0) with hm5
      set mEnc := writeBytes m5 (dOff + 15) (to16 (h m5 t.key)) with hmEnc
      have hb0 : getB mEnc dOff = a.protocol := by
        rw [hmEnc, hm5, hm4]
        simp only [getB_writeBytes, length_writeBytes, length_be64enc,
          length_be32enc, length_to16, List.length_replicate,
          List.length_cons, List.length_nil]
        split_ifs <;> first
          | (exfalso; omega)
          | (rw [Nat.sub_self]; rfl)
      have hb1 : getB mEnc (dOff + 1) = a.algorithm := by
        rw [hmEnc, hm5, hm4]
        simp only [getB_writeBytes, length_writeBytes, length_be64enc,
          length_be32enc, length_to16, List.length_replicate,
          List.length_cons, List.length_nil]
        split_ifs <;> first
          | (exfalso; omega)
          | (rw [show dOff + 1 - dOff = 1 from by omega]; rfl)
      have hb2 : getB mEnc (dOff + 2) = a.rdm := by
        rw [hmEnc, hm5, hm4]
        simp only [getB_writeBytes, length_writeBytes, length_be64enc,
          length_be32enc, length_to16, List.length_replicate,
          List.length_cons, List.length_nil]
        split_ifs <;> first
          | (exfalso; omega)
          | (rw [show dOff + 2 - dOff = 2 from by omega]; rfl)
      have hrep : readBytes mEnc (dOff + 3) 8 = be64enc rv := by
        apply ext_getB (by simp [length_readBytes, length_be64enc])
        intro i hi
        rw [length_readBytes] at hi
        rw [getB_readBytes, if_pos hi, hmEnc, hm5, hm4]
        simp only [getB_writeBytes, length_writeBytes, length_be64enc,
          length_be32enc, length_to16, List.length_replicate,
          List.length_cons, List.length_nil]
        split_ifs <;> first
          | (exfalso; omega)
          | (congr 1 <;> omega)
      have hsid4 : readBytes mEnc (dOff + 11) 4 = be32enc t.secretid := by
        apply ext_getB (by simp [length_readBytes, length_be32enc])
        intro i hi
        rw [length_readBytes] at hi
        rw [getB_readBytes, if_pos hi, hmEnc, hm5, hm4]
        simp only [getB_writeBytes, length_writeBytes, length_be64enc,
          length_be32enc, length_to16, List.length_replicate,
          List.length_cons, List.length_nil]
        split_ifs <;> first
          | (exfalso; omega)
          | (congr 1 <;> omega)
      refine ⟨?_, ?_, ?_⟩
      · rw [show ((16 : Nat) : Int) - 16 = 0 from by decide]
      · exact hrep
      · rw [validate_reaches_protocol_switch h now ⟨none, 0, none⟩ a mEnc 6 mt
          dOff dlen (by omega)
          (by rw [hmEnc, hm5]
              simp only [length_writeBytes]
              omega)
          (by rintro ⟨hz, _⟩; exact Hsend hz)
          (by rintro ⟨_, hc⟩
              rcases hc with hc | hc | hc
              · exact hc hb0
              · exact hc hb1
              · exact hc hb2)
          (by simp)]
        rw [switch_delayed_eq h now ⟨none, 0, none⟩ a mEnc 6 mt dOff dlen
          (getB mEnc dOff) (getB mEnc (dOff + 1))
          (beDec (readBytes mEnc (dOff + 3) 8)) (hb0.trans hp1) (by omega)]
        rw [lookup_found h now ⟨none, 0, none⟩ a mEnc 6 (getB mEnc dOff)
          (getB mEnc (dOff + 1)) (beDec (readBytes mEnc (dOff + 3) 8))
          (beDec (readBytes mEnc (dOff + 11) 4)) [] (dOff + 15) (dlen - 15) t
          (by rw [hsid4, beDec_be32enc, Nat.mod_eq_of_lt Hsid]
              exact Hfind) Hexp]
        rw [gottoken_hmac_ok h ⟨none, 0, none⟩ mEnc 6 (getB mEnc dOff)
          (getB mEnc (dOff + 1)) (beDec (readBytes mEnc (dOff + 3) 8)) t
          (dOff + 15) (dlen - 15) (by simp)
          (by rw [hb0, hp1]; decide) (hb1.trans Halg)
          (by rw [if_neg (show ¬(6 : Nat) = 4 from by decide),
              show dlen - 15 = 16 from by omega, hmEnc, hm5, v6_norm_absorb,
              take16_to16]
              apply ext_getB (by simp only [length_readBytes, length_to16])
              intro i hi
              rw [length_readBytes] at hi
              rw [getB_readBytes, if_pos hi]
              simp only [getB_writeBytes, length_writeBytes, length_to16,
                List.length_replicate]
              split_ifs <;> first
                | (exfalso; omega)
                | (congr 1 <;> omega))]
        rw [hrep, beDec_be64enc, Nat.mod_eq_of_lt hrvlt]
  · -- AUTH_PROTO_DELAYEDREALM
    have hdl : dlen = 1 + 1 + 1 + 8 + (t.realm.length + (4 + 16)) := by
      rw [Hdlen, if_neg (by rw [hp3]; decide), if_pos hp3]
    rw [if_neg (by rw [hp3]; decide), if_pos hp3] at Hfind
    rw [encode_emit_delayedrealm_eq h ev rst a t m mp mt dOff dlen hp3 Hmt
      (by omega) (by omega)]
    rcases Hmp with hmp | hmp <;> subst hmp
    · -- mp = 4
      have hoff : 28 ≤ dOff := Hoff rfl
      dsimp only []
      simp only [eq_self_iff_true, if_true]
      rw [show dOff + 11 + t.realm.length + 4 = dOff + 15 + t.realm.length
          from by omega,
        show dlen - 11 - t.realm.length - 4 = 16 from by omega]
      set rv := (get_next_rdm_monotonic ev rst).1 with hrv
      set m4 := writeBytes (writeBytes (writeBytes (writeBytes m dOff
          [a.protocol, a.algorithm, a.rdm]) (dOff + 3) (be64enc rv))
          (dOff + 11) t.realm)
          (dOff + 11 + t.realm.length) (be32enc t.secretid) with hm4
      have hm4len : m4.length = m.length := by
        rw [hm4]; simp only [length_writeBytes]
      set m5 := writeBytes m4 (dOff + 15 + t.realm.length)
          (List.replicate 16 0) with hm5
      set m7 := writeBytes (writeBytes m5 off_hwopcount [0]) off_giaddr
          [0, 0, 0, 0] with hm7
      set mEnc := writeBytes (writeBytes (writeBytes m7
          (dOff + 15 + t.realm.length)
          (to16 (h m7 t.key))) off_hwopcount [getB m5 off_hwopcount])
          off_giaddr (readBytes (writeBytes m5 off_hwopcount [0])
          off_giaddr 4) with hmEnc
      have hb0 : getB mEnc dOff = a.protocol := by
        rw [hmEnc, hm7, hm5, hm4]
        simp only [getB_writeBytes, length_writeBytes, length_be64enc,
          length_be32enc, length_to16, length_readBytes,
          List.length_replicate, List.length_cons, List.length_nil,
          off_hwopcount, off_giaddr]
        split_ifs <;> first
          | (exfalso; omega)
          | (rw [Nat.sub_self]; rfl)
      have hb1 : getB mEnc (dOff + 1) = a.algorithm := by
        rw [hmEnc, hm7, hm5, hm4]
        simp only [getB_writeBytes, length_writeBytes, length_be64enc,
          length_be32enc, length_to16, length_readBytes,
          List.length_replicate, List.length_cons, List.length_nil,
          off_hwopcount, off_giaddr]
        split_ifs <;> first
          | (exfalso; omega)
          | (rw [show dOff + 1 - dOff = 1 from by omega]; rfl)
      have hb2 : getB mEnc (dOff + 2) = a.rdm := by
        rw [hmEnc, hm7, hm5, hm4]
        simp only [getB_writeBytes, length_writeBytes, length_be64enc,
          length_be32enc, length_to16, length_readBytes,
          List.length_replicate, List.length_cons, List.length_nil,
          off_hwopcount, off_giaddr]
        split_ifs <;> first
          | (exfalso; omega)
          | (rw [show dOff + 2 - dOff = 2 from by omega]; rfl)
      have hrep : readBytes mEnc (dOff + 3) 8 = be64enc rv := by
        apply ext_getB (by simp [length_readBytes, length_be64enc])
        intro i hi
        rw [length_readBytes] at hi
        rw [getB_readBytes, if_pos hi, hmEnc, hm7, hm5, hm4]
        simp only [getB_writeBytes, length_writeBytes, length_be64enc,
          length_be32enc, length_to16, length_readBytes,
          List.length_replicate, List.length_cons, List.length_nil,
          off_hwopcount, off_giaddr]
        split_ifs <;> first
          | (exfalso; omega)
          | (congr 1 <;> omega)
      have hrealm : readBytes mEnc (dOff + 11) t.realm.length = t.realm := by
        apply ext_getB (by rw [length_readBytes])
        intro i hi
        rw [length_readBytes] at hi
        rw [getB_readBytes, if_pos hi, hmEnc, hm7, hm5, hm4]
        simp only [getB_writeBytes, length_writeBytes, length_be64enc,
          length_be32enc, length_to16, length_readBytes,
          List.length_replicate, List.length_cons, List.length_nil,
          off_hwopcount, off_giaddr]
        split_ifs <;> first
          | (exfalso; omega)
          | (congr 1 <;> omega)
      have hsid4 : readBytes mEnc (dOff + 11 + t.realm.length) 4 =
          be32enc t.secretid := by
        apply ext_getB (by simp [length_readBytes, length_be32enc])
        intro i hi
        rw [length_readBytes] at hi
        rw [getB_readBytes, if_pos hi, hmEnc, hm7, hm5, hm4]
        simp only [getB_writeBytes, length_writeBytes, length_be64enc,
          length_be32enc, length_to16, length_readBytes,
          List.length_replicate, List.length_cons, List.length_nil,
          off_hwopcount, off_giaddr]
        split_ifs <;> first
          | (exfalso; omega)
          | (congr 1 <;> omega)
      refine ⟨?_, ?_, ?_⟩
      · rw [show ((16 : Nat) : Int) - 16 = 0 from by decide]
      · exact hrep
      · rw [validate_reaches_protocol_switch h now ⟨none, 0, none⟩ a mEnc 4 mt
          dOff dlen (by omega)
          (by rw [hmEnc, hm7, hm5]
              simp only [length_writeBytes]
              omega)
          (by rintro ⟨hz, _⟩; exact Hsend hz)
          (by rintro ⟨_, hc⟩
              rcases hc with hc | hc | hc
              · exact hc hb0
              · exact hc hb1
              · exact hc hb2)
          (by simp)]
        rw [switch_delayedrealm_eq h now ⟨none, 0, none⟩ a mEnc 4 mt dOff dlen
          (getB mEnc dOff) (getB mEnc (dOff + 1))
          (beDec (readBytes mEnc (dOff + 3) 8)) (hb0.trans hp3) (by omega)]
        rw [show dlen - 11 - (4 + 16) = t.realm.length from by omega]
        rw [lookup_found h now ⟨none, 0, none⟩ a mEnc 4 (getB mEnc dOff)
          (getB mEnc (dOff + 1)) (beDec (readBytes mEnc (dOff + 3) 8))
          (beDec (readBytes mEnc (dOff + 11 + t.realm.length) 4))
          (readBytes mEnc (dOff + 11) t.realm.length)
          (dOff + 15 + t.realm.length) (dlen - 15 - t.realm.length) t
          (by rw [hsid4, hrealm, beDec_be32enc, Nat.mod_eq_of_lt Hsid]
              exact Hfind) Hexp]
        rw [gottoken_hmac_ok h ⟨none, 0, none⟩ mEnc 4 (getB mEnc dOff)
          (getB mEnc (dOff + 1)) (beDec (readBytes mEnc (dOff + 3) 8)) t
          (dOff + 15 + t.realm.length) (dlen - 15 - t.realm.length) (by simp)
          (by rw [hb0, hp3]; decide) (hb1.trans Halg)
          (by rw [if_pos rfl,
              show dlen - 15 - t.realm.length = 16 from by omega, hmEnc, hm7,
              hm5, v4_norm_absorb _ _ _ _ _ (length_readBytes _ _ _),
              take16_to16]
              apply ext_getB (by simp only [length_readBytes, length_to16])
              intro i hi
              rw [length_readBytes] at hi
              rw [getB_readBytes, if_pos hi]
              simp only [getB_writeBytes, length_writeBytes, length_to16,
                length_readBytes, List.length_replicate, List.length_cons,
                List.length_nil, off_hwopcount, off_giaddr]
              split_ifs <;> first
                | (exfalso; omega)
                | (congr 1 <;> omega))]
        rw [hrep, beDec_be64enc, Nat.mod_eq_of_lt hrvlt]
    · -- mp = 6
      dsimp only []
      simp only [if_neg (show ¬(6 : Nat) = 4 from by decide)]
      rw [show dOff + 11 + t.realm.length + 4 = dOff + 15 + t.realm.length
          from by omega,
        show dlen - 11 - t.realm.length - 4 = 16 from by omega]
      set rv := (get_next_rdm_monotonic ev rst).1 with hrv
      set m4 := writeBytes (writeBytes (writeBytes (writeBytes m dOff
          [a.protocol, a.algorithm, a.rdm]) (dOff + 3) (be64enc rv))
          (dOff + 11) t.realm)
          (dOff + 11 + t.realm.length) (be32enc t.secretid) with hm4
      have hm4len : m4.length = m.length := by
        rw [hm4]; simp only [length_writeBytes]
      set m5 := writeBytes m4 (dOff + 15 + t.realm.length)
          (List.replicate 16 0) with hm5
      set mEnc := writeBytes m5 (dOff + 15 + t.realm.length)
          (to16 (h m5 t.key)) with hmEnc
      have hb0 : getB mEnc dOff = a.protocol := by
        rw [hmEnc, hm5, hm4]
        simp only [getB_writeBytes, length_writeBytes, length_be64enc,
          length_be32enc, length_to16, List.length_replicate,
          List.length_cons, List.length_nil]
        split_ifs <;> first
          | (exfalso; omega)
          | (rw [Nat.sub_self]; rfl)
      have hb1 : getB mEnc (dOff + 1) = a.algorithm := by
        rw [hmEnc, hm5, hm4]
        simp only [getB_writeBytes, length_writeBytes, length_be64enc,
          length_be32enc, length_to16, List.length_replicate,
          List.length_cons, List.length_nil]
        split_ifs <;> first
          | (exfalso; omega)
          | (rw [show dOff + 1 - dOff = 1 from by omega]; rfl)
      have hb2 : getB mEnc (dOff + 2) = a.rdm := by
        rw [hmEnc, hm5, hm4]
        simp only [getB_writeBytes, length_writeBytes, length_be64enc,
          length_be32enc, length_to16, List.length_replicate,
          List.length_cons, List.length_nil]
        split_ifs <;> first
          | (exfalso; omega)
          | (rw [show dOff + 2 - dOff = 2 from by omega]; rfl)
      have hrep : readBytes mEnc (dOff + 3) 8 = be64enc rv := by
        apply ext_getB (by simp [length_readBytes, length_be64enc])
        intro i hi
        rw [length_readBytes] at hi
        rw [getB_readBytes, if_pos hi, hmEnc, hm5, hm4]
        simp only [getB_writeBytes, length_writeBytes, length_be64enc,
          length_be32enc, length_to16, List.length_replicate,
          List.length_cons, List.length_nil]
        split_ifs <;> first
          | (exfalso; omega)
          | (congr 1 <;> omega)
      have hrealm : readBytes mEnc (dOff + 11) t.realm.length = t.realm := by
        apply ext_getB (by rw [length_readBytes])
        intro i hi
        rw [length_readBytes] at hi
        rw [getB_readBytes, if_pos hi, hmEnc, hm5, hm4]
        simp only [getB_writeBytes, length_writeBytes, length_be64enc,
          length_be32enc, length_to16, List.length_replicate,
          List.length_cons, List.length_nil]
        split_ifs <;> first
          | (exfalso; omega)
          | (congr 1 <;> omega)
      have hsid4 : readBytes mEnc (dOff + 11 + t.realm.length) 4 =
          be32enc t.secretid := by
        apply ext_getB (by simp [length_readBytes, length_be32enc])
        intro i hi
        rw [length_readBytes] at hi
        rw [getB_readBytes, if_pos hi, hmEnc, hm5, hm4]
        simp only [getB_writeBytes, length_writeBytes, length_be64enc,
          length_be32enc, length_to16, List.length_replicate,
          List.length_cons, List.length_nil]
        split_ifs <;> first
          | (exfalso; omega)
          | (congr 1 <;> omega)
      refine ⟨?_, ?_, ?_⟩
      · rw [show ((16 : Nat) : Int) - 16 = 0 from by decide]
      · exact hrep
      · rw [validate_reaches_protocol_switch h now ⟨none, 0, none⟩ a mEnc 6 mt
          dOff dlen (by omega)
          (by rw [hmEnc, hm5]
              simp only [length_writeBytes]
              omega)
          (by rintro ⟨hz, _⟩; exact Hsend hz)
          (by rintro ⟨_, hc⟩
              rcases hc with hc | hc | hc
              · exact hc hb0
              · exact hc hb1
              · exact hc hb2)
          (by simp)]
        rw [switch_delayedrealm_eq h now ⟨none, 0, none⟩ a mEnc 6 mt dOff dlen
          (getB mEnc dOff) (getB mEnc (dOff + 1))
          (beDec (readBytes mEnc (dOff + 3) 8)) (hb0.trans hp3) (by omega)]
        rw [show dlen - 11 - (4 + 16) = t.realm.length from by omega]
        rw [lookup_found h now ⟨none, 0, none⟩ a mEnc 6 (getB mEnc dOff)
          (getB mEnc (dOff + 1)) (beDec (readBytes mEnc (dOff + 3) 8))
          (beDec (readBytes mEnc (dOff + 11 + t.realm.length) 4))
          (readBytes mEnc (dOff + 11) t.realm.length)
          (dOff + 15 + t.realm.length) (dlen - 15 - t.realm.length) t
          (by rw [hsid4, hrealm, beDec_be32enc, Nat.mod_eq_of_lt Hsid]
              exact Hfind) Hexp]
        rw [gottoken_hmac_ok h ⟨none, 0, none⟩ mEnc 6 (getB mEnc dOff)
          (getB mEnc (dOff + 1)) (beDec (readBytes mEnc (dOff + 3) 8)) t
          (dOff + 15 + t.realm.length) (dlen - 15 - t.realm.length) (by simp)
          (by rw [hb0, hp3]; decide) (hb1.trans Halg)
          (by rw [if_neg (show ¬(6 : Nat) = 4 from by decide),
              show dlen - 15 - t.realm.length = 16 from by omega, hmEnc, hm5,
              v6_norm_absorb, take16_to16]
              apply ext_getB (by simp only [length_readBytes, length_to16])
              intro i hi
              rw [length_readBytes] at hi
              rw [getB_readBytes, if_pos hi]
              simp only [getB_writeBytes, length_writeBytes, length_to16,
                List.length_replicate]
              split_ifs <;> first
                | (exfalso; omega)
                | (congr 1 <;> omega))]
        rw [hrep, beDec_be64enc, Nat.mod_eq_of_lt hrvlt]

/-- Witness for C2: a concrete DELAYED round trip over DHCPv6 (REPLY),
secret id 7, 3-byte key, 40-byte message, option slice at (2, 31). -/
theorem encode_validate_roundtrip_witness :
    (dhcp_auth_encode (fun _ _ => List.replicate 16 7) 0
      ⟨false, false, false⟩ ⟨none, 0, false⟩
      ⟨1, 1, 1, 0, [⟨7, [], [1, 2, 3], 0⟩]⟩ (some ⟨7, [], [1, 2, 3], 0⟩)
      (List.replicate 40 9) 6 7 (some (2, 31))).1 = .ok 0 ∧
    readBytes (dhcp_auth_encode (fun _ _ => List.replicate 16 7) 0
      ⟨false, false, false⟩ ⟨none, 0, false⟩
      ⟨1, 1, 1, 0, [⟨7, [], [1, 2, 3], 0⟩]⟩ (some ⟨7, [], [1, 2, 3], 0⟩)
      (List.replicate 40 9) 6 7 (some (2, 31))).2.1 (2 + 3) 8 =
      be64enc (get_next_rdm_monotonic ⟨false, false, false⟩
        ⟨none, 0, false⟩).1 ∧
    dhcp_auth_validate (fun _ _ => List.replicate 16 7) 0 ⟨none, 0, none⟩
      ⟨1, 1, 1, 0, [⟨7, [], [1, 2, 3], 0⟩]⟩
      (dhcp_auth_encode (fun _ _ => List.replicate 16 7) 0
        ⟨false, false, false⟩ ⟨none, 0, false⟩
        ⟨1, 1, 1, 0, [⟨7, [], [1, 2, 3], 0⟩]⟩ (some ⟨7, [], [1, 2, 3], 0⟩)
        (List.replicate 40 9) 6 7 (some (2, 31))).2.1 6 7 2 31 =
      (.ok ⟨7, [], [1, 2, 3], 0⟩, ⟨some ⟨7, [], [1, 2, 3], 0⟩,
        (get_next_rdm_monotonic ⟨false, false, false⟩ ⟨none, 0, false⟩).1,
        none⟩) :=
  encode_validate_roundtrip (fun _ _ => List.replicate 16 7) 0 ⟨false, false, false⟩
    ⟨none, 0, false⟩ ⟨1, 1, 1, 0, [⟨7, [], [1, 2, 3], 0⟩]⟩
    ⟨7, [], [1, 2, 3], 0⟩ (List.replicate 40 9) 6 7 2 31
    (by decide) (by decide) (by decide) (by decide) (by decide) (by decide)
    (by decide) (by decide) (by decide) (by decide) (by decide) (by rfl)

/-- C6: a successful (non-negative C return value) emit-mode encode of a
DHCPv4 message under an HMAC protocol (DELAYED or DELAYED_REALM) leaves
every byte of the message outside the authentication-option slice
`[dOff, dOff + dlen)` bit-exactly as it was: the `hwopcount` (hops) byte
and the four `giaddr` bytes are zeroed for the MAC computation
(src/auth.c:519-531) but restored before returning (src/auth.c:541-547),
and every other write lands inside the option slice. -/
theorem encode_v4_outside_option_unchanged (h : List Nat → List Nat → List Nat)
    (now : Nat) (ev : RdmEvent) (rst : RdmSt) (a : auth) (tok : Option token)
    (m : List Nat) (mt : Nat) (dOff dlen : Nat) (r : Int) (m' : List Nat)
    (rst' : RdmSt)
    (Hp : a.protocol = AUTH_PROTO_DELAYED ∨
      a.protocol = AUTH_PROTO_DELAYEDREALM)
    (Hrun : dhcp_auth_encode h now ev rst a tok m 4 mt (some (dOff, dlen)) =
      (.ok r, m', rst'))
    (Hok : 0 ≤ r) :
    m'.length = m.length ∧
    ∀ i, i < dOff ∨ dOff + dlen ≤ i → getB m' i = getB m i := by
  have Hsel : ¬(a.protocol = 0 ∧ tok.isNone) := by
    rintro ⟨h0, _⟩
    rcases Hp with hp | hp <;> (rw [hp] at h0; exact absurd h0 (by decide))
  have Hguard : a.protocol = AUTH_PROTO_TOKEN ∨
      a.protocol = AUTH_PROTO_DELAYED ∨
      a.protocol = AUTH_PROTO_DELAYEDREALM := by
    rcases Hp with hp | hp
    · exact Or.inr (Or.inl hp)
    · exact Or.inr (Or.inr hp)
  have HpT : ¬a.protocol = AUTH_PROTO_TOKEN := by
    rcases Hp with hp | hp <;> (rw [hp]; decide)
  have Halg : a.algorithm = AUTH_ALG_HMAC_MD5 := by
    by_contra hc
    unfold dhcp_auth_encode at Hrun
    rw [if_neg Hsel] at Hrun
    dsimp only [] at Hrun
    rw [if_neg (not_not_intro Hguard), if_pos hc] at Hrun
    simp at Hrun
  have Hrdm : a.rdm = AUTH_RDM_MONOTONIC := by
    by_contra hc
    unfold dhcp_auth_encode at Hrun
    rw [if_neg Hsel] at Hrun
    dsimp only [] at Hrun
    rw [if_neg (not_not_intro Hguard), if_neg (not_not_intro Halg),
      if_pos hc] at Hrun
    simp at Hrun
  have Hd : ¬dlen < 1 + 1 + 1 + 8 := by
    intro hd
    unfold dhcp_auth_encode at Hrun
    rw [if_neg Hsel] at Hrun
    dsimp only [] at Hrun
    rw [if_neg (not_not_intro Hguard), if_neg (not_not_intro Halg),
      if_neg (not_not_intro Hrdm)] at Hrun
    rw [if_pos hd] at Hrun
    simp at Hrun
  have Hrange : dOff + dlen ≤ m.length := by
    by_contra hr
    unfold dhcp_auth_encode at Hrun
    rw [if_neg Hsel] at Hrun
    dsimp only [] at Hrun
    rw [if_neg (not_not_intro Hguard), if_neg (not_not_intro Halg),
      if_neg (not_not_intro Hrdm)] at Hrun
    rw [if_neg Hd, if_pos (by omega)] at Hrun
    simp at Hrun
  rw [encode_reaches_emit h now ev rst a tok m 4 mt dOff dlen Hsel Hguard
    Halg Hrdm Hd Hrange] at Hrun
  by_cases hmt : ((4 : Nat) = 4 ∧ (mt = DHCP_DISCOVER ∨ mt = DHCP_INFORM)) ∨
      ((4 : Nat) = 6 ∧ (mt = DHCP6_SOLICIT ∨ mt = DHCP6_INFORMATION_REQ))
  · rw [encode_emit_skipmt_eq h ev rst a tok m 4 mt dOff dlen HpT hmt] at Hrun
    injection Hrun with h1 h23
    injection h23 with h2 h3
    subst h2
    refine ⟨by simp [length_writeBytes], ?_⟩
    intro i hi
    rw [getB_writeBytes_out _ _ _ _ (by rw [length_be64enc]; omega),
      getB_writeBytes_out _ _ _ _ (by simp; omega)]
  · cases tok with
    | none =>
      rw [encode_emit_token_none_eq h ev rst a m 4 mt dOff dlen HpT hmt] at Hrun
      injection Hrun with h1 h23
      injection h23 with h2 h3
      subst h2
      refine ⟨by simp [length_writeBytes], ?_⟩
      intro i hi
      rw [getB_writeBytes_out _ _ _ _ (by rw [length_be64enc]; omega),
        getB_writeBytes_out _ _ _ _ (by simp; omega)]
    | some t =>
      rcases Hp with hp | hp
      · -- DELAYED
        have Hcap : ¬dlen - 11 < 4 := by
          intro hcap
          unfold encode_emit at Hrun
          dsimp only [] at Hrun
          rw [if_neg HpT, if_neg hmt,
            if_neg (show ¬(a.protocol = AUTH_PROTO_DELAYEDREALM ∧
              dlen - 11 < t.realm.length) from by
                rw [hp]; rintro ⟨hh, _⟩; exact absurd hh (by decide))] at Hrun
          simp only [if_neg (show ¬a.protocol = AUTH_PROTO_DELAYEDREALM from by
            rw [hp]; decide)] at Hrun
          rw [if_pos hcap] at Hrun
          simp at Hrun
        rw [encode_emit_delayed_eq h ev rst a t m 4 mt dOff dlen hp hmt
          Hcap] at Hrun
        simp only [eq_self_iff_true, if_true] at Hrun
        injection Hrun with h1 h23
        injection h23 with h2 h3
        have hrem : 31 ≤ dlen := by
          have := Except.ok.inj h1
          omega
        subst h2
        refine ⟨by simp [length_writeBytes], ?_⟩
        intro i hi
        rw [hg_restore_outside _ dOff dlen (dOff + 11 + 4) _ i (by omega)
          (by omega) hi]
        rw [getB_writeBytes_out _ _ _ _ (by rw [List.length_replicate]; omega),
          getB_writeBytes_out _ _ _ _ (by rw [length_be32enc]; omega),
          getB_writeBytes_out _ _ _ _ (by rw [length_be64enc]; omega),
          getB_writeBytes_out _ _ _ _ (by simp; omega)]
      · -- DELAYED_REALM
        have Hcapr : ¬dlen - 11 < t.realm.length := by
          intro hcap
          unfold encode_emit at Hrun
          dsimp only [] at Hrun
          rw [if_neg HpT, if_neg hmt,
            if_pos (show a.protocol = AUTH_PROTO_DELAYEDREALM ∧
              dlen - 11 < t.realm.length from ⟨hp, hcap⟩)] at Hrun
          simp at Hrun
        have Hcap : ¬dlen - 11 - t.realm.length < 4 := by
          intro hcap
          unfold encode_emit at Hrun
          dsimp only [] at Hrun
          rw [if_neg HpT, if_neg hmt,
            if_neg (show ¬(a.protocol = AUTH_PROTO_DELAYEDREALM ∧
              dlen - 11 < t.realm.length) from by
                rintro ⟨_, hh⟩; exact Hcapr hh)] at Hrun
          simp only [if_pos hp] at Hrun
          rw [if_pos hcap] at Hrun
          simp at Hrun
        rw [encode_emit_delayedrealm_eq h ev rst a t m 4 mt dOff dlen hp hmt
          Hcapr Hcap] at Hrun
        simp only [eq_self_iff_true, if_true] at Hrun
        injection Hrun with h1 h23
        injection h23 with h2 h3
        have hrem : t.realm.length + 4 + 16 ≤ dlen - 11 := by
          have := Except.ok.inj h1
          omega
        have hd11 : ¬dlen < 11 := Hd
        subst h2
        refine ⟨by simp [length_writeBytes], ?_⟩
        intro i hi
        rw [hg_restore_outside _ dOff dlen (dOff + 11 + t.realm.length + 4) _
          i (by omega) (by omega) hi]
        rw [getB_writeBytes_out _ _ _ _ (by rw [List.length_replicate]; omega),
          getB_writeBytes_out _ _ _ _ (by rw [length_be32enc]; omega),
          getB_writeBytes_out _ _ _ _ (by omega),
          getB_writeBytes_out _ _ _ _ (by rw [length_be64enc]; omega),
          getB_writeBytes_out _ _ _ _ (by simp; omega)]

/-- C6 witness: a concrete DELAYED_REALM v4 encode at `dOff = 28`,
`dlen = 33` in a 70-byte message returns 0 and leaves the `giaddr` byte at
offset 24 (and with it everything outside the option slice) unchanged. -/
theorem encode_v4_outside_option_unchanged_witness :
    getB (dhcp_auth_encode (fun _ _ => List.replicate 16 7) 0
      ⟨false, false, false⟩ ⟨none, 0, false⟩
      ⟨1, 3, 1, 0, [⟨42, [97, 99], [5, 6], 0⟩]⟩
      (some ⟨42, [97, 99], [5, 6], 0⟩)
      ((List.range 70).map (fun i => (i + 1) % 256)) 4 5
      (some (28, 33))).2.1 24 =
    getB ((List.range 70).map (fun i => (i + 1) % 256)) 24 := by
  exact (encode_v4_outside_option_unchanged (fun _ _ => List.replicate 16 7)
    0 ⟨false, false, false⟩ ⟨none, 0, false⟩
    ⟨1, 3, 1, 0, [⟨42, [97, 99], [5, 6], 0⟩]⟩
    (some ⟨42, [97, 99], [5, 6], 0⟩)
    ((List.range 70).map (fun i => (i + 1) % 256)) 5 28 33 0
    (dhcp_auth_encode (fun _ _ => List.replicate 16 7) 0
      ⟨false, false, false⟩ ⟨none, 0, false⟩
      ⟨1, 3, 1, 0, [⟨42, [97, 99], [5, 6], 0⟩]⟩
      (some ⟨42, [97, 99], [5, 6], 0⟩)
      ((List.range 70).map (fun i => (i + 1) % 256)) 4 5
      (some (28, 33))).2.1
    (dhcp_auth_encode (fun _ _ => List.replicate 16 7) 0
      ⟨false, false, false⟩ ⟨none, 0, false⟩
      ⟨1, 3, 1, 0, [⟨42, [97, 99], [5, 6], 0⟩]⟩
      (some ⟨42, [97, 99], [5, 6], 0⟩)
      ((List.range 70).map (fun i => (i + 1) % 256)) 4 5
      (some (28, 33))).2.2
    (Or.inr rfl) (by decide) (by decide)).2 24 (by decide)

/-- C9: with protocol RECONF_KEY (and the call reaching the protocol
switch), a payload length after header and replay different from `1 + 16`
is *malformed* (EINVAL) — including options shorter than the 11-byte
header, for which the same error is raised by the length precondition; a
type byte other than 1 or 2 is *malformed*; type 1 outside `(mp=4, ACK)` /
`(mp=6, REPLY)` is *malformed*; and type 2 without a previously stored
reconfigure key errors with ENOENT (src/auth.c:172-224). -/
theorem validate_reconf_key_error_cases (h : List Nat → List Nat → List Nat)
    (now : Nat) (state : authstate) (a : auth) (m : List Nat)
    (mp mt dOff dlen : Nat)
    (Hrange : dOff + dlen ≤ m.length)
    (Hproto : getB m dOff = AUTH_PROTO_RECONFKEY)
    (Hpol : ¬(a.options &&& DHCPCD_AUTH_SEND ≠ 0 ∧
      (getB m dOff ≠ a.protocol ∨ getB m (dOff + 1) ≠ a.algorithm ∨
       getB m (dOff + 2) ≠ a.rdm)))
    (Hfresh : ¬(state.token.isSome ∧
      usub64 (beDec (readBytes m (dOff + 3) 8)) state.replay ≤ 0)) :
    (dlen - 11 ≠ 1 + 16 →
      dhcp_auth_validate h now state a m mp mt dOff dlen =
        (.error .EINVAL, state)) ∧
    (dlen - 11 = 1 + 16 → getB m (dOff + 11) ≠ 1 → getB m (dOff + 11) ≠ 2 →
      dhcp_auth_validate h now state a m mp mt dOff dlen =
        (.error .EINVAL, state)) ∧
    (dlen - 11 = 1 + 16 → getB m (dOff + 11) = 1 →
      ¬((mp = 4 ∧ mt = DHCP_ACK) ∨ (mp = 6 ∧ mt = DHCP6_REPLY)) →
      dhcp_auth_validate h now state a m mp mt dOff dlen =
        (.error .EINVAL, state)) ∧
    (dlen - 11 = 1 + 16 → getB m (dOff + 11) = 2 → state.reconf = none →
      dhcp_auth_validate h now state a m mp mt dOff dlen =
        (.error .ENOENT, state)) := by
  have hp1 : ¬(a.options &&& DHCPCD_AUTH_SEND = 0 ∧
      getB m dOff ≠ AUTH_PROTO_RECONFKEY) := by
    rintro ⟨_, hne⟩; exact hne Hproto
  refine ⟨?_, ?_, ?_, ?_⟩
  · intro Hlen
    by_cases hdl : dlen < 3 + 8
    · unfold dhcp_auth_validate
      rw [if_pos hdl]
    · rw [validate_reaches_protocol_switch h now state a m mp mt dOff dlen
        hdl Hrange hp1 Hpol Hfresh]
      unfold validate_protocol_switch
      rw [if_neg (by rw [Hproto]; decide), if_neg (by rw [Hproto]; decide),
        if_neg (by rw [Hproto]; decide), if_pos Hproto, if_pos Hlen]
  · intro Hlen Hty1 Hty2
    rw [validate_reaches_protocol_switch h now state a m mp mt dOff dlen
      (by omega) Hrange hp1 Hpol Hfresh]
    unfold validate_protocol_switch
    rw [if_neg (by rw [Hproto]; decide), if_neg (by rw [Hproto]; decide),
      if_neg (by rw [Hproto]; decide), if_pos Hproto, if_neg (by omega)]
    dsimp only []
    rw [if_neg Hty1, if_neg Hty2]
  · intro Hlen Hty Hacc
    rw [validate_reaches_protocol_switch h now state a m mp mt dOff dlen
      (by omega) Hrange hp1 Hpol Hfresh]
    unfold validate_protocol_switch
    rw [if_neg (by rw [Hproto]; decide), if_neg (by rw [Hproto]; decide),
      if_neg (by rw [Hproto]; decide), if_pos Hproto, if_neg (by omega)]
    dsimp only []
    rw [if_pos Hty, if_neg Hacc]
  · intro Hlen Hty Hrec
    rw [validate_reaches_protocol_switch h now state a m mp mt dOff dlen
      (by omega) Hrange hp1 Hpol Hfresh]
    unfold validate_protocol_switch
    rw [if_neg (by rw [Hproto]; decide), if_neg (by rw [Hproto]; decide),
      if_neg (by rw [Hproto]; decide), if_pos Hproto, if_neg (by omega)]
    dsimp only []
    rw [if_neg (by rw [Hty]; decide), if_pos Hty, Hrec]

/-- C9 witness: with a no-SEND policy and a RECONF_KEY option of payload
length 1 (≠ 17) on a fresh state, validate is *malformed*. -/
theorem validate_reconf_key_error_cases_witness :
    dhcp_auth_validate (fun _ _ => []) 0 ⟨none, 0, none⟩ ⟨0, 0, 0, 0, []⟩
      [2, 0, 0, 0, 0, 0, 0, 0, 0, 0, 1, 9] 4 5 0 12 =
      (.error .EINVAL, ⟨none, 0, none⟩) := by
  exact (validate_reconf_key_error_cases (fun _ _ => []) 0 ⟨none, 0, none⟩
    ⟨0, 0, 0, 0, []⟩ [2, 0, 0, 0, 0, 0, 0, 0, 0, 0, 1, 9] 4 5 0 12
    (by decide) (by decide) (by decide) (by decide)).1 (by decide)

/-- C10: a successful RECONF_KEY type-1 key delivery returns a token with
zero secret id, empty realm and the 16 key bytes from the message, stores
exactly that token in `state.reconf`, and leaves `state.token` and
`state.replay` untouched (src/auth.c:179-209): key delivery neither pins a
token nor adopts the message's replay value. -/
theorem validate_reconf_key_delivery (h : List Nat → List Nat → List Nat)
    (now : Nat) (state : authstate) (a : auth) (m : List Nat)
    (mp mt dOff dlen : Nat)
    (Hrange : dOff + dlen ≤ m.length)
    (Hproto : getB m dOff = AUTH_PROTO_RECONFKEY)
    (Hpol : ¬(a.options &&& DHCPCD_AUTH_SEND ≠ 0 ∧
      (getB m dOff ≠ a.protocol ∨ getB m (dOff + 1) ≠ a.algorithm ∨
       getB m (dOff + 2) ≠ a.rdm)))
    (Hfresh : ¬(state.token.isSome ∧
      usub64 (beDec (readBytes m (dOff + 3) 8)) state.replay ≤ 0))
    (Hlen : dlen - 11 = 1 + 16)
    (Hty : getB m (dOff + 11) = 1)
    (Hacc : (mp = 4 ∧ mt = DHCP_ACK) ∨ (mp = 6 ∧ mt = DHCP6_REPLY)) :
    dhcp_auth_validate h now state a m mp mt dOff dlen =
      (.ok ⟨0, [], readBytes m (dOff + 12) 16, 0⟩,
        { state with reconf := some ⟨0, [], readBytes m (dOff + 12) 16, 0⟩ }) ∧
    (readBytes m (dOff + 12) 16).length = 16 := by
  constructor
  · rw [validate_reaches_protocol_switch h now state a m mp mt dOff dlen
      (by omega) Hrange
      (by rintro ⟨_, hne⟩; exact hne Hproto) Hpol Hfresh]
    unfold validate_protocol_switch
    rw [if_neg (by rw [Hproto]; decide), if_neg (by rw [Hproto]; decide),
      if_neg (by rw [Hproto]; decide), if_pos Hproto, if_neg (by omega)]
    dsimp only []
    rw [if_pos Hty, if_pos Hacc]
  · exact length_readBytes m (dOff + 12) 16

/-- C10 witness: a v4 ACK delivering a 16-byte reconfigure key is accepted,
fills only `state.reconf`, and keeps `state.token = none` and
`state.replay = 0`. -/
theorem validate_reconf_key_delivery_witness :
    dhcp_auth_validate (fun _ _ => []) 0 ⟨none, 0, none⟩ ⟨0, 0, 0, 0, []⟩
      ([2, 1, 0, 0, 0, 0, 0, 0, 0, 0, 9, 1] ++
        (List.range 16).map (fun i => 100 + i)) 4 DHCP_ACK 0 28 =
      (.ok ⟨0, [], (List.range 16).map (fun i => 100 + i), 0⟩,
        ⟨none, 0, some ⟨0, [], (List.range 16).map (fun i => 100 + i), 0⟩⟩) := by
  have := (validate_reconf_key_delivery (fun _ _ => []) 0 ⟨none, 0, none⟩
    ⟨0, 0, 0, 0, []⟩
    ([2, 1, 0, 0, 0, 0, 0, 0, 0, 0, 9, 1] ++
      (List.range 16).map (fun i => 100 + i)) 4 DHCP_ACK 0 28
    (by decide) (by decide) (by decide) (by decide) (by decide) (by decide)
    (Or.inl ⟨rfl, rfl⟩)).1
  rw [this]
  decide

theorem validate_token_stable (h : List Nat → List Nat → List Nat) (now : Nat)
    (state : authstate) (a : auth) (m : List Nat) (mp mt : Nat)
    (dOff dlen : Nat) (t0 : token) (Hpin : state.token = some t0) :
    (dhcp_auth_validate h now state a m mp mt dOff dlen).2.token = some t0 := by
  unfold dhcp_auth_validate
  repeat' first
    | split
    | dsimp only []
  all_goals first
    | (exact switch_token_stable h now state a m mp mt dOff dlen _ _ _
        t0 Hpin)
    | simp [Hpin]

/-- C7: once `state.token` is pinned to `t0` it is never re-assigned to a
different token: (i) after any validate call the stored token is still
`some t0`; (ii) a message that resolves to a different token `t ≠ t0` —
one that an unpinned session with the same replay baseline and reconfigure
key would successfully validate and pin as `t`, so in particular a message
correctly authenticated under `t` — is *denied* (EPERM, src/auth.c:250-253)
with the state unchanged. -/
theorem validate_token_pinning (h : List Nat → List Nat → List Nat)
    (now : Nat) (state : authstate) (a : auth) (m : List Nat) (mp mt : Nat)
    (dOff dlen : Nat) (t0 : token) (Hpin : state.token = some t0) :
    ((dhcp_auth_validate h now state a m mp mt dOff dlen).2.token = some t0) ∧
    (∀ t : token,
      (dhcp_auth_validate h now ⟨none, state.replay, state.reconf⟩ a m mp mt
        dOff dlen).1 = .ok t →
      (dhcp_auth_validate h now ⟨none, state.replay, state.reconf⟩ a m mp mt
        dOff dlen).2.token = some t →
      t ≠ t0 →
      dhcp_auth_validate h now state a m mp mt dOff dlen =
        (.error .EPERM, state)) := by
  constructor
  · exact validate_token_stable h now state a m mp mt dOff dlen t0 Hpin
  · intro t Hok Hpins Hne
    have hd : ¬dlen < 3 + 8 := by
      intro hd
      unfold dhcp_auth_validate at Hok
      rw [if_pos hd] at Hok
      simp at Hok
    have hrange : ¬(dOff > m.length ∨ dOff + dlen > m.length) := by
      intro hr
      unfold dhcp_auth_validate at Hok
      rw [if_neg hd, if_pos hr] at Hok
      simp at Hok
    have hp1 : ¬(a.options &&& DHCPCD_AUTH_SEND = 0 ∧
        getB m dOff ≠ AUTH_PROTO_RECONFKEY) := by
      intro hp
      unfold dhcp_auth_validate at Hok
      rw [if_neg hd, if_neg hrange] at Hok
      dsimp only [] at Hok
      rw [if_pos hp] at Hok
      simp at Hok
    have hp2 : ¬(a.options &&& DHCPCD_AUTH_SEND ≠ 0 ∧
        (getB m dOff ≠ a.protocol ∨ getB m (dOff + 1) ≠ a.algorithm ∨
         getB m (dOff + 2) ≠ a.rdm)) := by
      intro hp
      unfold dhcp_auth_validate at Hok
      rw [if_neg hd, if_neg hrange] at Hok
      dsimp only [] at Hok
      rw [if_neg hp1, if_pos hp] at Hok
      simp at Hok
    have hreach := validate_reaches_protocol_switch h now
      ⟨none, state.replay, state.reconf⟩ a m mp mt dOff dlen hd (by omega)
      hp1 hp2 (by simp)
    rw [hreach] at Hok Hpins
    by_cases hrp : usub64 (beDec (readBytes m (dOff + 3) 8)) state.replay ≤ 0
    · unfold dhcp_auth_validate
      rw [if_neg hd, if_neg hrange]
      dsimp only []
      rw [if_neg hp1, if_neg hp2, if_pos ⟨by simp [Hpin], hrp⟩]
    · have hreach2 := validate_reaches_protocol_switch h now state a m mp mt
        dOff dlen hd (by omega) hp1 hp2 (by rintro ⟨_, hh⟩; exact hrp hh)
      rw [hreach2]
      exact switch_pin_denies h now state a m mp mt dOff dlen _ _ _ t0 t
        Hpin Hne Hok Hpins

/-- C7 witness: with token `t0 = (secretid 1)` pinned, a DELAYED message
carrying `secretid = 2` whose MAC is valid under token `t1` — an unpinned
session validates it to `t1` — is denied. -/
theorem validate_token_pinning_witness :
    dhcp_auth_validate (fun _ _ => List.replicate 16 7) 0
      ⟨some ⟨1, [], [8, 8], 0⟩, 0, none⟩
      ⟨1, 1, 1, 0, [⟨1, [], [8, 8], 0⟩, ⟨2, [], [9, 9], 0⟩]⟩
      ([1, 1, 0, 0, 0, 0, 0, 0, 0, 0, 1, 0, 0, 0, 2] ++ List.replicate 16 7)
      6 3 0 31 =
      (.error .EPERM, ⟨some ⟨1, [], [8, 8], 0⟩, 0, none⟩) := by
  exact (validate_token_pinning (fun _ _ => List.replicate 16 7) 0
    ⟨some ⟨1, [], [8, 8], 0⟩, 0, none⟩
    ⟨1, 1, 1, 0, [⟨1, [], [8, 8], 0⟩, ⟨2, [], [9, 9], 0⟩]⟩
    ([1, 1, 0, 0, 0, 0, 0, 0, 0, 0, 1, 0, 0, 0, 2] ++ List.replicate 16 7)
    6 3 0 31 ⟨1, [], [8, 8], 0⟩ rfl).2 ⟨2, [], [9, 9], 0⟩
    (by decide) (by decide) (by decide)

/-- C8: in size-query mode (no target buffer) the encoder returns
`11 + t.key_len` for TOKEN, `11 + 4 + 16` for DELAYED and
`11 + t.realm_len + 4 + 16` for DELAYED_REALM (src/auth.c:418-436), for
any policy of the supported matrix and explicitly chosen token. -/
theorem encode_size_query (h : List Nat → List Nat → List Nat) (now : Nat)
    (ev : RdmEvent) (rst : RdmSt) (a : auth) (t : token) (m : List Nat)
    (mp mt : Nat)
    (Hp : a.protocol = AUTH_PROTO_TOKEN ∨ a.protocol = AUTH_PROTO_DELAYED ∨
      a.protocol = AUTH_PROTO_DELAYEDREALM)
    (Ha : a.algorithm = AUTH_ALG_HMAC_MD5) (Hr : a.rdm = AUTH_RDM_MONOTONIC) :
    (dhcp_auth_encode h now ev rst a (some t) m mp mt none).1 =
      .ok (((1 + 1 + 1 + 8) +
        (if a.protocol = AUTH_PROTO_TOKEN then t.key.length
         else if a.protocol = AUTH_PROTO_DELAYEDREALM then
           t.realm.length + (4 + 16)
         else 4 + 16) : Nat) : Int) := by
  rcases Hp with h0 | h1 | h3
  · simp [dhcp_auth_encode, h0, Ha, Hr, AUTH_PROTO_TOKEN, AUTH_PROTO_DELAYED,
      AUTH_PROTO_DELAYEDREALM]
  · simp [dhcp_auth_encode, h1, Ha, Hr, AUTH_PROTO_TOKEN, AUTH_PROTO_DELAYED,
      AUTH_PROTO_DELAYEDREALM]
  · simp [dhcp_auth_encode, h3, Ha, Hr, AUTH_PROTO_TOKEN, AUTH_PROTO_DELAYED,
      AUTH_PROTO_DELAYEDREALM]

/-- C8 witness: the spec's scenario S1 — policy `{TOKEN, HMAC_MD5,
MONOTONIC, SEND}` with the 5-byte key `"hello"` yields a size query of
`3 + 8 + 5 = 16`. -/
theorem encode_size_query_witness :
    (dhcp_auth_encode (fun _ _ => []) 0 ⟨false, false, false⟩ ⟨none, 0, false⟩
      ⟨1, 0, 1, 0, [⟨0, [], [104, 101, 108, 108, 111], 0⟩]⟩
      (some ⟨0, [], [104, 101, 108, 108, 111], 0⟩) [] 4 DHCP_DISCOVER none).1 =
      .ok 16 := by
  have := encode_size_query (fun _ _ => []) 0 ⟨false, false, false⟩
    ⟨none, 0, false⟩ ⟨1, 0, 1, 0, [⟨0, [], [104, 101, 108, 108, 111], 0⟩]⟩
    ⟨0, [], [104, 101, 108, 108, 111], 0⟩ [] 4 DHCP_DISCOVER
    (Or.inl rfl) rfl rfl
  simpa using this

end DhcpcdAuth
